import Mathlib

/-!
# Verification of the Ordoro → Snowflake inventory sync (`shipping.py`)

This file gives a shallow embedding of the algorithmic core of
`src/shipping.py` — the dual-mode pagination cursor, the retrying HTTP
fetcher, the record flattener/sanitizer, the run-scoped deduplication of
product and warehouse rows, and the dataframe cleaning stage — and proves
the testable properties of the spec about the embedded definitions.

Conventions:
* Python generators become fuel-indexed functions that also return the trace
  of requests issued and an explicit outcome marker.
* Python sets become lists with membership-guarded insertion.
* Python exceptions become `Except String`.
* `pandas` dataframes become ordered association lists from column names to
  columns of cells.
-/

namespace ShippingSync

/-! ## Dual-mode pagination cursor (`iter_products_batches`)

A raw record only matters to the cursor through its `id` field
(`(batch[0] or {}).get("id")`), so a record is modelled as an optional id;
a `none` id covers records without an `"id"` key, falsy records, and
records whose id is JSON null.  The HTTP layer is abstracted as a source
function from the request parameters actually sent — the mode flag
(`page` vs `offset` key) and its value — to the decoded batch; the
payload-key probing of lines 117-125 happens on the provider side of this
interface and yields the same `List PRec`. -/

/-- A raw product record as seen by the pagination cursor: its `id`. -/
structure PRec where
  id : Option Int
deriving DecidableEq, Repr

/-- Embeds `(batch[0] or {}).get("id")`: the id of the leading record. -/
def headId : List PRec → Option Int
  | [] => none
  | r :: _ => r.id

/-- The mutable cursor state: `offset`, `last_first_id`, `use_page_mode`,
`page` (lines 106-109 of `shipping.py`). -/
structure CState where
  offset : Nat
  lastFirstId : Option Int
  usePageMode : Bool
  page : Nat
deriving DecidableEq, Repr

/-- Initial cursor state: `offset = 0`, `last_first_id = None`,
`use_page_mode = False`, `page = 1`. -/
def initCState : CState := ⟨0, none, false, 1⟩

/-- How one run of the cursor ended. -/
inductive Outcome where
  /-- The fuel bound was hit before the loop ended (never happens for a
  finite source with enough fuel). -/
  | fuelOut
  /-- An empty batch ended the loop (`if not batch: break`). -/
  | emptyEnd
  /-- An under-full yielded batch ended the loop
  (`if len(batch) < limit_each: break`). -/
  | underfullEnd
deriving DecidableEq, Repr

/-- Shallow embedding of `iter_products_batches` (lines 100-147).  `src m v`
is the batch decoded from the response to a request with `limit = limit`
and either `offset = v` (when `m = false`) or `page = v` (when `m = true`).
Returns the trace of requests `(mode, value)` issued, the list of yielded
batches, and how the loop ended.  `fuel` bounds the number of loop
iterations; a run that ends within the bound is unaffected by it. -/
def iter_products_batches (src : Bool → Nat → List PRec) (limit : Nat) :
    Nat → CState → List (Bool × Nat) × List (List PRec) × Outcome
  | 0, _ => ([], [], .fuelOut)
  | fuel + 1, st =>
    -- params = {"limit": ..., ("page" if use_page_mode else "offset"): ...}
    let reqVal := if st.usePageMode then st.page else st.offset
    let batch := src st.usePageMode reqVal
    if batch = [] then
      -- if not batch: break
      ([(st.usePageMode, reqVal)], [], .emptyEnd)
    else
      let firstId := headId batch
      if st.usePageMode = false ∧ st.lastFirstId ≠ none ∧ firstId = st.lastFirstId then
        -- stall: use_page_mode = True; page = (offset // limit_each) + 2; continue
        let rest := iter_products_batches src limit fuel
          { st with usePageMode := true, page := st.offset / limit + 2 }
        ((st.usePageMode, reqVal) :: rest.1, rest.2)
      else if batch.length < limit then
        -- yield batch; final batch reached: break
        ([(st.usePageMode, reqVal)], [batch], .underfullEnd)
      else
        -- yield batch; advance page or offset/last_first_id
        let st' := if st.usePageMode then { st with page := st.page + 1 }
          else { st with offset := st.offset + batch.length, lastFirstId := firstId }
        let rest := iter_products_batches src limit fuel st'
        ((st.usePageMode, reqVal) :: rest.1, batch :: rest.2.1, rest.2.2)

/-- A finite synthetic source with a well-defined total record count,
backed by the record list `recs`: an offset-mode request returns the
`limit`-sized window starting at `offset`, a page-mode request the window
starting at `(page - 1) * limit` (page 1 is the first window). -/
def synthSrc (recs : List PRec) (limit : Nat) : Bool → Nat → List PRec :=
  fun usePage v =>
    if usePage then (recs.drop ((v - 1) * limit)).take limit
    else (recs.drop v).take limit

/-- The position in the underlying record list that the cursor state will
request next from a `synthSrc`-style source. -/
def posOf (limit : Nat) (st : CState) : Nat :=
  if st.usePageMode then (st.page - 1) * limit else st.offset

theorem synthSrc_req (recs : List PRec) (limit : Nat) (st : CState) :
    synthSrc recs limit st.usePageMode (if st.usePageMode then st.page else st.offset)
      = (recs.drop (posOf limit st)).take limit := by
  cases h : st.usePageMode <;> simp [synthSrc, posOf, h]

/-! ### One-iteration unfolding lemmas for the cursor -/

theorem iter_step_emptyEnd {src : Bool → Nat → List PRec} {limit fuel : Nat} {st : CState}
    (h : src st.usePageMode (if st.usePageMode then st.page else st.offset) = []) :
    iter_products_batches src limit (fuel + 1) st
      = ([(st.usePageMode, if st.usePageMode then st.page else st.offset)], [], .emptyEnd) := by
  simp [iter_products_batches, h]

theorem iter_step_stall {src : Bool → Nat → List PRec} {limit fuel o p : Nat}
    {lfi : Option Int}
    (hne : src false o ≠ [])
    (hl : lfi ≠ none)
    (hid : headId (src false o) = lfi) :
    iter_products_batches src limit (fuel + 1) ⟨o, lfi, false, p⟩
      = ((false, o) :: (iter_products_batches src limit fuel ⟨o, lfi, true, o / limit + 2⟩).1,
         (iter_products_batches src limit fuel ⟨o, lfi, true, o / limit + 2⟩).2) := by
  simp [iter_products_batches, hne, hl, hid]

theorem iter_step_underfull_offset {src : Bool → Nat → List PRec} {limit fuel o p : Nat}
    {lfi : Option Int}
    (hne : src false o ≠ [])
    (hns : ¬(lfi ≠ none ∧ headId (src false o) = lfi))
    (hlt : (src false o).length < limit) :
    iter_products_batches src limit (fuel + 1) ⟨o, lfi, false, p⟩
      = ([(false, o)], [src false o], .underfullEnd) := by
  simp [iter_products_batches, hne, hns, hlt]

theorem iter_step_yield_offset {src : Bool → Nat → List PRec} {limit fuel o p : Nat}
    {lfi : Option Int}
    (hne : src false o ≠ [])
    (hns : ¬(lfi ≠ none ∧ headId (src false o) = lfi))
    (hfull : ¬((src false o).length < limit)) :
    iter_products_batches src limit (fuel + 1) ⟨o, lfi, false, p⟩
      = ((false, o) ::
          (iter_products_batches src limit fuel
            ⟨o + (src false o).length, headId (src false o), false, p⟩).1,
         (src false o) ::
          (iter_products_batches src limit fuel
            ⟨o + (src false o).length, headId (src false o), false, p⟩).2.1,
         (iter_products_batches src limit fuel
            ⟨o + (src false o).length, headId (src false o), false, p⟩).2.2) := by
  simp [iter_products_batches, hne, hns, hfull]

theorem iter_step_underfull_page {src : Bool → Nat → List PRec} {limit fuel o p : Nat}
    {lfi : Option Int}
    (hne : src true p ≠ [])
    (hlt : (src true p).length < limit) :
    iter_products_batches src limit (fuel + 1) ⟨o, lfi, true, p⟩
      = ([(true, p)], [src true p], .underfullEnd) := by
  simp [iter_products_batches, hne, hlt]

theorem iter_step_yield_page {src : Bool → Nat → List PRec} {limit fuel o p : Nat}
    {lfi : Option Int}
    (hne : src true p ≠ [])
    (hfull : ¬((src true p).length < limit)) :
    iter_products_batches src limit (fuel + 1) ⟨o, lfi, true, p⟩
      = ((true, p) :: (iter_products_batches src limit fuel ⟨o, lfi, true, p + 1⟩).1,
         (src true p) :: (iter_products_batches src limit fuel ⟨o, lfi, true, p + 1⟩).2.1,
         (iter_products_batches src limit fuel ⟨o, lfi, true, p + 1⟩).2.2) := by
  simp [iter_products_batches, hne, hfull]

/-- Every iteration records its request first, so with at least one unit of
fuel the trace starts with the request determined by the entry state. -/
theorem iter_trace_head (src : Bool → Nat → List PRec) (limit fuel : Nat) (st : CState) :
    (iter_products_batches src limit (fuel + 1) st).1.head?
      = some (st.usePageMode, if st.usePageMode then st.page else st.offset) := by
  obtain ⟨o, lfi, m, p⟩ := st
  cases m <;>
  · simp only [iter_products_batches, if_true, if_false, Bool.false_eq_true, Bool.true_eq_false,
      ite_true, ite_false]
    split
    · rfl
    · split
      · rfl
      · split <;> rfl

theorem synth_batch_length (recs : List PRec) (limit n : Nat) :
    ((recs.drop n).take limit).length = min limit (recs.length - n) := by
  simp [List.length_take, List.length_drop]

theorem measure_step {N pos limit f : Nat} (h : N + 1 ≤ pos + limit * (f + 1)) :
    N + 1 ≤ pos + limit + limit * f := by
  have hm : limit * (f + 1) = limit * f + limit := by ring
  omega

/-- Once the cursor is in page mode it stays there: every request issued
from a page-mode state is a page-mode request. -/
theorem iter_page_mode_trace (src : Bool → Nat → List PRec) (limit : Nat) :
    ∀ fuel (st : CState), st.usePageMode = true →
      ∀ e ∈ (iter_products_batches src limit fuel st).1, e.1 = true := by
  intro fuel
  induction fuel with
  | zero => intro st _ e he; simp [iter_products_batches] at he
  | succ f ih =>
    intro st hm e he
    obtain ⟨o, lfi, m, p⟩ := st
    cases hm
    simp only [iter_products_batches, if_true, ite_true] at he
    by_cases hb : src true p = []
    · simp [hb] at he; simp [he]
    · rw [if_neg hb] at he
      have hstall : ¬((true : Bool) = false ∧ lfi ≠ none ∧ headId (src true p) = lfi) := by
        simp
      rw [if_neg hstall] at he
      by_cases hlt : (src true p).length < limit
      · rw [if_pos hlt] at he
        simp at he; simp [he]
      · rw [if_neg hlt] at he
        simp only [if_pos rfl, List.mem_cons] at he
        rcases he with he | he
        · simp [he]
        · exact ih ⟨o, lfi, true, p + 1⟩ rfl e he

/-- Fuel bound: starting from any state whose page counter is at least 1 and
whose offset is aligned to the limit while in offset mode, a run over the
synthetic source with enough fuel does not run out of fuel.  The measure is
the next-request position `posOf`: every loop iteration (yield, or the one
stall transition) advances it by exactly `limit`. -/
theorem iter_synth_terminates (recs : List PRec) (limit : Nat) :
    ∀ fuel (st : CState), 1 ≤ st.page →
      (st.usePageMode = false → st.offset % limit = 0) →
      recs.length + 1 ≤ posOf limit st + limit * fuel →
      (iter_products_batches (synthSrc recs limit) limit (fuel + 1) st).2.2
        ≠ Outcome.fuelOut := by
  intro fuel
  induction fuel with
  | zero =>
    intro st hp hoff hmeas
    have hempty : synthSrc recs limit st.usePageMode
        (if st.usePageMode then st.page else st.offset) = [] := by
      rw [synthSrc_req]
      have h0 : recs.length ≤ posOf limit st := by omega
      rw [List.drop_eq_nil_of_le h0, List.take_nil]
    rw [iter_step_emptyEnd hempty]
    simp
  | succ f ih =>
    intro st hp hoff hmeas
    obtain ⟨o, lfi, m, p⟩ := st
    replace hp : 1 ≤ p := hp
    replace hoff : m = false → o % limit = 0 := hoff
    by_cases hb : synthSrc recs limit m (if m then p else o) = []
    · cases m <;> · rw [iter_step_emptyEnd hb]; simp
    · have hblen : (synthSrc recs limit m (if m then p else o)).length
          = min limit (recs.length - posOf limit ⟨o, lfi, m, p⟩) := by
        rw [synthSrc_req recs limit ⟨o, lfi, m, p⟩]
        exact synth_batch_length recs limit _
      cases m
      · -- offset mode
        simp only [if_false, Bool.false_eq_true, ite_false] at hb hblen
        have ho : o % limit = 0 := hoff rfl
        simp only [posOf, Bool.false_eq_true, if_false, ite_false] at hblen hmeas
        by_cases hstall : lfi ≠ none ∧ headId (synthSrc recs limit false o) = lfi
        · rw [iter_step_stall hb hstall.1 hstall.2]
          have hpos2 : posOf limit ⟨o, lfi, true, o / limit + 2⟩ = o + limit := by
            simp only [posOf, if_true, ite_true]
            have h1 : ∀ y : Nat, y + 2 - 1 = y + 1 := fun y => by omega
            rw [h1, Nat.add_mul, one_mul, Nat.div_mul_cancel (Nat.dvd_of_mod_eq_zero ho)]
          refine ih ⟨o, lfi, true, o / limit + 2⟩
            (le_trans one_le_two (Nat.le_add_left 2 _)) (by simp) ?_
          rw [hpos2]
          exact measure_step hmeas
        · by_cases hlt : (synthSrc recs limit false o).length < limit
          · rw [iter_step_underfull_offset hb hstall hlt]; simp
          · rw [iter_step_yield_offset hb hstall hlt]
            have hlen_le : (synthSrc recs limit false o).length ≤ limit := by
              rw [hblen]; exact min_le_left _ _
            have hlen : (synthSrc recs limit false o).length = limit :=
              le_antisymm hlen_le (le_of_not_lt hlt)
            refine ih ⟨o + (synthSrc recs limit false o).length,
                headId (synthSrc recs limit false o), false, p⟩ hp ?_ ?_
            · intro _
              show (o + (synthSrc recs limit false o).length) % limit = 0
              rw [hlen, Nat.add_mod_right, ho]
            · simp only [posOf, Bool.false_eq_true, if_false, ite_false]
              rw [hlen]
              exact measure_step hmeas
      · -- page mode
        simp only [if_true, ite_true] at hb hblen
        simp only [posOf, if_true, ite_true] at hmeas
        by_cases hlt : (synthSrc recs limit true p).length < limit
        · rw [iter_step_underfull_page hb hlt]; simp
        · rw [iter_step_yield_page hb hlt]
          refine ih ⟨o, lfi, true, p + 1⟩ (Nat.le_add_left 1 p) (by simp) ?_
          simp only [posOf, if_true, ite_true]
          have hpm : (p + 1 - 1) * limit = (p - 1) * limit + limit := by
            have h1 : p + 1 - 1 = (p - 1) + 1 := by omega
            rw [h1, Nat.succ_mul]
          rw [hpm]
          exact measure_step hmeas

theorem getLast?_cons_of_getLast? {α : Type} {l : List α} {a b : α}
    (h : l.getLast? = some b) : (a :: l).getLast? = some b := by
  cases l with
  | nil => simp at h
  | cons x xs => rw [List.getLast?_cons_cons]; exact h

/-- Whenever a run ends through the under-full break
(`if len(batch) < limit_each: break`), its last yielded batch is the
under-full one. -/
theorem iter_underfull_last (src : Bool → Nat → List PRec) (limit : Nat) :
    ∀ fuel (st : CState),
      (iter_products_batches src limit fuel st).2.2 = Outcome.underfullEnd →
      ∃ b, (iter_products_batches src limit fuel st).2.1.getLast? = some b
        ∧ b.length < limit := by
  intro fuel
  induction fuel with
  | zero => intro st h; simp [iter_products_batches] at h
  | succ f ih =>
    intro st h
    obtain ⟨o, lfi, m, p⟩ := st
    by_cases hb : src m (if m then p else o) = []
    · cases m <;> · rw [iter_step_emptyEnd hb] at h; simp at h
    · cases m
      · simp only [if_false, Bool.false_eq_true, ite_false] at hb
        by_cases hstall : lfi ≠ none ∧ headId (src false o) = lfi
        · rw [iter_step_stall hb hstall.1 hstall.2] at h ⊢
          exact ih ⟨o, lfi, true, o / limit + 2⟩ h
        · by_cases hlt : (src false o).length < limit
          · rw [iter_step_underfull_offset hb hstall hlt]
            exact ⟨src false o, by simp, hlt⟩
          · rw [iter_step_yield_offset hb hstall hlt] at h ⊢
            obtain ⟨b, hlast, hblt⟩ := ih _ h
            exact ⟨b, getLast?_cons_of_getLast? hlast, hblt⟩
      · simp only [if_true, ite_true] at hb
        by_cases hlt : (src true p).length < limit
        · rw [iter_step_underfull_page hb hlt]
          exact ⟨src true p, by simp, hlt⟩
        · rw [iter_step_yield_page hb hlt] at h ⊢
          obtain ⟨b, hlast, hblt⟩ := ih _ h
          exact ⟨b, getLast?_cons_of_getLast? hlast, hblt⟩

/-- When the total record count is an exact multiple of the limit, every
batch the synthetic source serves from an aligned position is either full
or empty, so a run can never end through the under-full break. -/
theorem iter_synth_multiple_no_underfull (recs : List PRec) (limit : Nat)
    (hmod : recs.length % limit = 0) :
    ∀ fuel (st : CState),
      (st.usePageMode = false → st.offset % limit = 0) →
      (iter_products_batches (synthSrc recs limit) limit fuel st).2.2
        ≠ Outcome.underfullEnd := by
  have hkey : ∀ pos : Nat, pos % limit = 0 →
      min limit (recs.length - pos) ≠ 0 →
      ¬ (min limit (recs.length - pos) < limit) := by
    intro pos hpos hne hltm
    have hx : min limit (recs.length - pos) = recs.length - pos := by
      rcases le_total limit (recs.length - pos) with h | h
      · rw [min_eq_left h] at hltm; omega
      · exact min_eq_right h
    rw [hx] at hne hltm
    have hdvd : limit ∣ (recs.length - pos) :=
      Nat.dvd_sub' (Nat.dvd_of_mod_eq_zero hmod) (Nat.dvd_of_mod_eq_zero hpos)
    have hge := Nat.le_of_dvd (Nat.pos_of_ne_zero hne) hdvd
    omega
  intro fuel
  induction fuel with
  | zero => intro st _; simp [iter_products_batches]
  | succ f ih =>
    intro st hoff
    obtain ⟨o, lfi, m, p⟩ := st
    replace hoff : m = false → o % limit = 0 := hoff
    by_cases hb : synthSrc recs limit m (if m then p else o) = []
    · cases m <;> · rw [iter_step_emptyEnd hb]; simp
    · have hblen : (synthSrc recs limit m (if m then p else o)).length
          = min limit (recs.length - posOf limit ⟨o, lfi, m, p⟩) := by
        rw [synthSrc_req recs limit ⟨o, lfi, m, p⟩]
        exact synth_batch_length recs limit _
      have hbne : (synthSrc recs limit m (if m then p else o)).length ≠ 0 := by
        simpa [List.length_eq_zero] using hb
      cases m
      · -- offset mode
        simp only [if_false, Bool.false_eq_true, ite_false] at hb hblen hbne
        have ho : o % limit = 0 := hoff rfl
        simp only [posOf, Bool.false_eq_true, if_false, ite_false] at hblen
        by_cases hstall : lfi ≠ none ∧ headId (synthSrc recs limit false o) = lfi
        · rw [iter_step_stall hb hstall.1 hstall.2]
          exact ih ⟨o, lfi, true, o / limit + 2⟩ (by simp)
        · by_cases hlt : (synthSrc recs limit false o).length < limit
          · rw [hblen] at hlt hbne
            exact absurd hlt (hkey o ho hbne)
          · rw [iter_step_yield_offset hb hstall hlt]
            have hlen_le : (synthSrc recs limit false o).length ≤ limit := by
              rw [hblen]; exact min_le_left _ _
            have hlen : (synthSrc recs limit false o).length = limit :=
              le_antisymm hlen_le (le_of_not_lt hlt)
            refine ih ⟨o + (synthSrc recs limit false o).length,
                headId (synthSrc recs limit false o), false, p⟩ ?_
            intro _
            show (o + (synthSrc recs limit false o).length) % limit = 0
            rw [hlen, Nat.add_mod_right, ho]
      · -- page mode
        simp only [if_true, ite_true] at hb hblen hbne
        simp only [posOf, if_true, ite_true] at hblen
        by_cases hlt : (synthSrc recs limit true p).length < limit
        · rw [hblen] at hlt hbne
          exact absurd hlt (hkey ((p - 1) * limit) (Nat.mul_mod_left _ _) hbne)
        · rw [iter_step_yield_page hb hlt]
          exact ih ⟨o, lfi, true, p + 1⟩ (by simp)

/-! ### Claim theorems about the pagination cursor -/

/-- A source that stalls at the first page boundary: the batch at offset 0
is full with leading id 5, the batch at offset 2 repeats leading id 5, and
page 3 serves a final under-full batch. -/
def stallPageOneSrc : Bool → Nat → List PRec := fun m v =>
  match m, v with
  | false, 0 => [⟨some 5⟩, ⟨some 6⟩]
  | false, 2 => [⟨some 5⟩, ⟨some 7⟩]
  | true, 3 => [⟨some 8⟩]
  | _, _ => []

/-- Counterexample to C1: for a source whose page-1 batch (offset 0) and
next offset-mode batch share the non-null leading id 5 (limit 2), the
cursor emits the batch of page 1 and switches to page mode, but the first
page-mode request uses page number 3, not `(0 ÷ limit) + 2 = 2`: at the
stall the offset has already advanced to `limit`, so the formula
`(offset ÷ limit) + 2` in the code gives 3.  The request trace is
`[(offset, 0), (offset, 2), (page, 3)]` and no request ever uses page 2. -/
theorem stall_first_page_request_is_three_not_two :
    iter_products_batches stallPageOneSrc 2 10 initCState
      = ([(false, 0), (false, 2), (true, 3)],
         [[⟨some 5⟩, ⟨some 6⟩], [⟨some 8⟩]], Outcome.underfullEnd)
    ∧ (true, 2) ∉ (iter_products_batches stallPageOneSrc 2 10 initCState).1 := by
  decide

/-- C1 (amended): for a source consumed in offset mode where the batch at
offset 0 ("page 1", full at the limit) and the next offset-mode batch (at
offset `limit`) share the same non-null first-record id, the cursor emits
the batch of page 1, then switches to page mode exactly once without yielding
the stalled batch, and the first page-mode request uses page number
`(limit ÷ limit) + 2 = 3` (the offset has been advanced to `limit` before
the stall is detected); every later request stays in page mode. -/
theorem stall_to_page_mode_transition
    (src : Bool → Nat → List PRec) (limit f : Nat) (x : Int)
    (hlim : 1 ≤ limit)
    (hlen : (src false 0).length = limit)
    (hid0 : headId (src false 0) = some x)
    (hid1 : headId (src false limit) = some x)
    (hne1 : src false limit ≠ []) :
    iter_products_batches src limit (f + 3) initCState
      = ((false, 0) :: (false, limit) ::
           (iter_products_batches src limit (f + 1) ⟨limit, some x, true, 3⟩).1,
         (src false 0) ::
           (iter_products_batches src limit (f + 1) ⟨limit, some x, true, 3⟩).2.1,
         (iter_products_batches src limit (f + 1) ⟨limit, some x, true, 3⟩).2.2)
    ∧ (iter_products_batches src limit (f + 1) ⟨limit, some x, true, 3⟩).1.head?
        = some (true, 3)
    ∧ (∀ e ∈ (iter_products_batches src limit (f + 1) ⟨limit, some x, true, 3⟩).1,
        e.1 = true) := by
  have hne0 : src false 0 ≠ [] := by
    intro h; rw [h] at hid0; simp [headId] at hid0
  have hf : f + 3 = (f + 2) + 1 := by omega
  have hdiv : limit / limit = 1 := Nat.div_self hlim
  refine ⟨?_, ?_, ?_⟩
  · rw [hf]
    have h1 := @iter_step_yield_offset src limit (f + 2) 0 1 none
      hne0 (by simp) (by rw [hlen]; omega)
    rw [show initCState = (⟨0, none, false, 1⟩ : CState) from rfl, h1, hlen, hid0]
    have h2 := @iter_step_stall src limit (f + 1) limit 1 (some x)
      hne1 (by simp) hid1
    rw [show (0 + limit) = limit from by omega, h2, hdiv]
  · have := iter_trace_head src limit f ⟨limit, some x, true, 3⟩
    simpa using this
  · exact iter_page_mode_trace src limit (f + 1) ⟨limit, some x, true, 3⟩ rfl

/-- Witness for the amended C1 theorem at the concrete stalling source. -/
theorem stall_to_page_mode_transition_witness :
    ((1 : Nat) ≤ 2) ∧
    (iter_products_batches stallPageOneSrc 2 (1 + 3) initCState
      = ((false, 0) :: (false, 2) ::
           (iter_products_batches stallPageOneSrc 2 (1 + 1) ⟨2, some 5, true, 3⟩).1,
         (stallPageOneSrc false 0) ::
           (iter_products_batches stallPageOneSrc 2 (1 + 1) ⟨2, some 5, true, 3⟩).2.1,
         (iter_products_batches stallPageOneSrc 2 (1 + 1) ⟨2, some 5, true, 3⟩).2.2)
    ∧ (iter_products_batches stallPageOneSrc 2 (1 + 1) ⟨2, some 5, true, 3⟩).1.head?
        = some (true, 3)
    ∧ (∀ e ∈ (iter_products_batches stallPageOneSrc 2 (1 + 1) ⟨2, some 5, true, 3⟩).1,
        e.1 = true)) :=
  ⟨by decide,
   stall_to_page_mode_transition stallPageOneSrc 2 1 5 (by decide) (by decide)
     (by decide) (by decide) (by decide)⟩

/-- Counterexample to C6 as stated: for the finite synthetic source with
records of ids `[1, 2, 1]` and limit 2 (total count 3, not a multiple of
2), the cursor yields the full first batch, stalls on the under-full
second batch (same leading id 1) without yielding it, and the page-mode
re-request at page 3 is empty — so the run terminates on an empty batch
although the last yielded batch has length equal to the limit and the
total count is not an exact multiple of the limit. -/
theorem finite_source_full_last_batch_counterexample :
    iter_products_batches (synthSrc [⟨some 1⟩, ⟨some 2⟩, ⟨some 1⟩] 2) 2 10 initCState
      = ([(false, 0), (false, 2), (true, 3)], [[⟨some 1⟩, ⟨some 2⟩]], Outcome.emptyEnd)
    ∧ (3 : Nat) % 2 ≠ 0
    ∧ ¬ (([(⟨some 1⟩ : PRec), ⟨some 2⟩].length) < 2) := by decide

/-- C6 (amended): for every finite synthetic source the cursor terminates
(no fuel-out with enough fuel); it ends either on an empty batch or by the
under-full break; whenever it ends by the under-full break the last yielded
batch has length strictly less that the limit; and when the total record
count is an exact multiple of the limit it always ends on the first empty
batch.  (When a stall transition fires on an under-full batch the remaining
records are skipped and the run also ends on an empty batch, even though
the total count need not be a multiple of the limit.) -/
theorem finite_source_termination (recs : List PRec) (limit : Nat) (hlim : 1 ≤ limit) :
    ∃ fuel,
      ((iter_products_batches (synthSrc recs limit) limit fuel initCState).2.2
          = Outcome.emptyEnd ∨
       (iter_products_batches (synthSrc recs limit) limit fuel initCState).2.2
          = Outcome.underfullEnd)
      ∧ ((iter_products_batches (synthSrc recs limit) limit fuel initCState).2.2
            = Outcome.underfullEnd →
          ∃ b, (iter_products_batches (synthSrc recs limit) limit fuel
              initCState).2.1.getLast? = some b ∧ b.length < limit)
      ∧ (recs.length % limit = 0 →
          (iter_products_batches (synthSrc recs limit) limit fuel initCState).2.2
            = Outcome.emptyEnd) := by
  refine ⟨(recs.length + 1) + 1, ?_, ?_, ?_⟩
  case _ =>
    have hterm := iter_synth_terminates recs limit (recs.length + 1) initCState
      (le_refl 1) (fun _ => Nat.zero_mod limit) ?_
    · cases hO : (iter_products_batches (synthSrc recs limit) limit
          ((recs.length + 1) + 1) initCState).2.2
      · exact absurd hO hterm
      · exact Or.inl rfl
      · exact Or.inr rfl
    · show recs.length + 1 ≤ 0 + limit * (recs.length + 1)
      have h1 := Nat.le_mul_of_pos_left (recs.length + 1) hlim
      omega
  case _ =>
    exact iter_underfull_last (synthSrc recs limit) limit ((recs.length + 1) + 1)
      initCState
  case _ =>
    intro hmod
    have hterm := iter_synth_terminates recs limit (recs.length + 1) initCState
      (le_refl 1) (fun _ => Nat.zero_mod limit) ?_
    · have hnu := iter_synth_multiple_no_underfull recs limit hmod
        ((recs.length + 1) + 1) initCState (fun _ => Nat.zero_mod limit)
      cases hO : (iter_products_batches (synthSrc recs limit) limit
          ((recs.length + 1) + 1) initCState).2.2
      · exact absurd hO hterm
      · rfl
      · exact absurd hO hnu
    · show recs.length + 1 ≤ 0 + limit * (recs.length + 1)
      have h1 := Nat.le_mul_of_pos_left (recs.length + 1) hlim
      omega

/-- Witness for the amended C6 theorem at a concrete three-record source. -/
theorem finite_source_termination_witness :
    ((1 : Nat) ≤ 2) ∧
    (∃ fuel,
      ((iter_products_batches (synthSrc [⟨some 1⟩, ⟨some 2⟩, ⟨some 3⟩] 2) 2 fuel
            initCState).2.2 = Outcome.emptyEnd ∨
       (iter_products_batches (synthSrc [⟨some 1⟩, ⟨some 2⟩, ⟨some 3⟩] 2) 2 fuel
            initCState).2.2 = Outcome.underfullEnd)
      ∧ ((iter_products_batches (synthSrc [⟨some 1⟩, ⟨some 2⟩, ⟨some 3⟩] 2) 2 fuel
            initCState).2.2 = Outcome.underfullEnd →
          ∃ b, (iter_products_batches (synthSrc [⟨some 1⟩, ⟨some 2⟩, ⟨some 3⟩] 2) 2 fuel
              initCState).2.1.getLast? = some b ∧ b.length < 2)
      ∧ (([(⟨some 1⟩ : PRec), ⟨some 2⟩, ⟨some 3⟩].length) % 2 = 0 →
          (iter_products_batches (synthSrc [⟨some 1⟩, ⟨some 2⟩, ⟨some 3⟩] 2) 2 fuel
            initCState).2.2 = Outcome.emptyEnd)) :=
  ⟨by decide, finite_source_termination [⟨some 1⟩, ⟨some 2⟩, ⟨some 3⟩] 2 (by decide)⟩

/-- C10: the stall-to-page-mode transition can never occur before at least
one batch has been yielded.  `last_first_id` starts as null and is only
assigned after a batch is yielded in offset mode, so the first non-empty
batch returned by the source is always yielded to the consumer, and a run
that yields nothing never issues a page-mode request. -/
theorem first_nonempty_batch_always_yielded
    (src : Bool → Nat → List PRec) (limit fuel : Nat) :
    (src false 0 ≠ [] →
      (iter_products_batches src limit (fuel + 1) initCState).2.1.head?
        = some (src false 0))
    ∧ ((iter_products_batches src limit (fuel + 1) initCState).2.1 = [] →
      ∀ e ∈ (iter_products_batches src limit (fuel + 1) initCState).1,
        e.1 = false) := by
  have hfirst : src false 0 ≠ [] →
      (iter_products_batches src limit (fuel + 1) initCState).2.1.head?
        = some (src false 0) := by
    intro hb
    have hns : ¬((none : Option Int) ≠ none ∧ headId (src false 0) = none) := by simp
    rw [show initCState = (⟨0, none, false, 1⟩ : CState) from rfl]
    by_cases hlt : (src false 0).length < limit
    · rw [iter_step_underfull_offset hb hns hlt]; rfl
    · rw [iter_step_yield_offset hb hns hlt]; rfl
  refine ⟨hfirst, ?_⟩
  intro hy e he
  by_cases hb : src false 0 = []
  · rw [show initCState = (⟨0, none, false, 1⟩ : CState) from rfl,
      @iter_step_emptyEnd src limit fuel ⟨0, none, false, 1⟩ hb] at he
    simp at he
    simp [he]
  · have hcontra := hfirst hb
    rw [hy] at hcontra
    simp at hcontra

/-- Witness for C10 at a concrete one-batch source. -/
theorem first_nonempty_batch_always_yielded_witness :
    ([(⟨some 9⟩ : PRec)] ≠ []) ∧
    (iter_products_batches (fun _ _ => [(⟨some 9⟩ : PRec)]) 2 (3 + 1)
        initCState).2.1.head? = some [(⟨some 9⟩ : PRec)] :=
  ⟨by decide,
   (first_nonempty_batch_always_yielded (fun _ _ => [(⟨some 9⟩ : PRec)]) 2 3).1
     (by decide)⟩

/-! ## Retrying HTTP fetcher (`_request_with_retry`, lines 78-97)

The network is abstracted as a function from the loop-iteration index to
the outcome of the `requests.get` call of that iteration: either a
transport-level `requests.RequestException` or a response carrying a
status code.  (The one-shot insecure-redirect rewrite of lines 84-89
happens inside the `try` block before the status checks and only
substitutes one response for another, so it is absorbed into this
interface.)  Back-off sleeps are recorded as a list of durations
`BACKOFF_BASE ^ attempt`, with `BACKOFF_BASE` modelled as a rational. -/

/-- Outcome of one `requests.get` call. -/
inductive NetResult where
  | transport
  | resp (status : Nat)
deriving DecidableEq, Repr

/-- The pending exception at a raise site.  Both `raise
requests.HTTPError(...)` (line 91) and `r.raise_for_status()` (line 92)
raise `requests.HTTPError`, a subclass of `requests.RequestException`. -/
inductive FetchErr where
  | transportErr
  | httpErr (status : Nat)
deriving DecidableEq, Repr

/-- The status tuple of line 90: `(429, 500, 502, 503, 504)`. -/
def RETRYABLE_STATUSES : List Nat := [429, 500, 502, 503, 504]

/-- One loop body of lines 82-93: the explicit retryable-status raise, then
`r.raise_for_status()` (which raises for every 4xx/5xx status), then
`return r`. -/
def attemptOutcome : NetResult → Except FetchErr Nat
  | .transport => .error .transportErr
  | .resp c =>
    if c ∈ RETRYABLE_STATUSES then .error (.httpErr c)
    else if 400 ≤ c ∧ c < 600 then .error (.httpErr c)
    else .ok c

/-- Shallow embedding of `_request_with_retry`.  `net i` is the outcome of
the request issued in loop iteration `i` (starting at 0); on a failure the
code sets `attempt = i + 1`, re-raises if `attempt > MAX_RETRIES`, and
otherwise sleeps `BACKOFF_BASE ** attempt` and retries.  Every raise site
in the `try` block raises a `requests.RequestException` subclass, so the
`except requests.RequestException` clause catches all of them — including
non-retryable 4xx from `raise_for_status`.  Returns the list of sleeps
performed and the first success or the re-raised final failure. -/
def _request_with_retry (net : Nat → NetResult) (b : ℚ) (maxRetries : Nat) :
    (i : Nat) → List ℚ × Except FetchErr Nat
  | i =>
    match attemptOutcome (net i) with
    | .ok c => ([], .ok c)
    | .error e =>
      if maxRetries < i + 1 then ([], .error e)
      else
        let rest := _request_with_retry net b maxRetries (i + 1)
        (b ^ (i + 1) :: rest.1, rest.2)
termination_by i => maxRetries + 1 - i
decreasing_by simp_wf; omega

/-- The exception produced by a failing call. -/
def errOf : NetResult → FetchErr
  | .transport => .transportErr
  | .resp c => .httpErr c

/-- A retryable outcome in the sense of the spec: a transport-level failure or
a response whose status is in `RETRYABLE_STATUSES`. -/
def retryableFailure (r : NetResult) : Prop :=
  r = .transport ∨ ∃ c, r = .resp c ∧ c ∈ RETRYABLE_STATUSES

theorem attemptOutcome_retryable {r : NetResult} (h : retryableFailure r) :
    attemptOutcome r = .error (errOf r) := by
  rcases h with h | ⟨c, rfl, hc⟩
  · subst h; rfl
  · simp [attemptOutcome, errOf, hc]

theorem retry_aux (net : Nat → NetResult) (b : ℚ) (maxRetries : Nat)
    (hfail : ∀ j, j ≤ maxRetries → retryableFailure (net j)) :
    ∀ d i, maxRetries - i = d → i ≤ maxRetries →
      _request_with_retry net b maxRetries i
        = ((List.range' (i + 1) (maxRetries - i)).map (fun a => b ^ a),
           .error (errOf (net maxRetries))) := by
  intro d
  induction d with
  | zero =>
    intro i hd hle
    have hi : i = maxRetries := by omega
    subst hi
    rw [_request_with_retry]
    rw [attemptOutcome_retryable (hfail i (le_refl i))]
    simp
  | succ d ih =>
    intro i hd hle
    have hlt : ¬ (maxRetries < i + 1) := by omega
    have hrec := ih (i + 1) (by omega) (by omega)
    rw [_request_with_retry]
    rw [attemptOutcome_retryable (hfail i hle)]
    simp only [hlt, if_false, ite_false]
    rw [hrec]
    have hr : maxRetries - i = (maxRetries - (i + 1)) + 1 := by omega
    rw [hr, List.range'_succ]
    simp

/-- C3 (code bug): a non-retryable 4xx does NOT fail immediately.
`r.raise_for_status()` raises `requests.HTTPError`, a subclass of
`requests.RequestException`, so the catch-all `except` clause retries it
with back-off like any retryable failure.  With a permanent 404,
`MAX_RETRIES = 2` and `BACKOFF_BASE = 3/2`, the fetcher performs two
back-off sleeps (`(3/2)^1` and `(3/2)^2`) and two retries before the
`HTTPError` is re-raised, instead of raising at once with no sleep. -/
theorem non_retryable_4xx_is_retried :
    _request_with_retry (fun _ => .resp 404) ((3 : ℚ)/2) 2 0
      = ([(3 : ℚ)/2 ^ 1, ((3 : ℚ)/2) ^ 2], .error (.httpErr 404)) := by
  simp [_request_with_retry, attemptOutcome, RETRYABLE_STATUSES]

/-- C5: when every attempt fails with a retryable status (429, 500, 502,
503, 504) or a transport-level failure, the fetcher retries
`MAX_RETRIES` times, sleeping `BACKOFF_BASE ^ attempt` seconds before
retry number `attempt` for `attempt = 1, ..., MAX_RETRIES`, and once the
cap is exceeded re-raises the failure of the final attempt. -/
theorem retryable_failures_backoff_and_reraise
    (net : Nat → NetResult) (b : ℚ) (maxRetries : Nat)
    (hfail : ∀ j, j ≤ maxRetries → retryableFailure (net j)) :
    _request_with_retry net b maxRetries 0
      = ((List.range' 1 maxRetries).map (fun a => b ^ a),
         .error (errOf (net maxRetries))) := by
  have h := retry_aux net b maxRetries hfail (maxRetries - 0) 0 rfl (Nat.zero_le _)
  simpa using h

/-- Witness for C5: a permanent 503 with `MAX_RETRIES = 2` and
`BACKOFF_BASE = 2` sleeps `2^1` then `2^2` and re-raises the 503. -/
theorem retryable_failures_backoff_and_reraise_witness :
    (∀ j, j ≤ 2 → retryableFailure ((fun _ => NetResult.resp 503) j))
    ∧ _request_with_retry (fun _ => NetResult.resp 503) 2 2 0
        = ([(2 : ℚ) ^ 1, (2 : ℚ) ^ 2], .error (.httpErr 503)) :=
  ⟨fun j _ => Or.inr ⟨503, rfl, by decide⟩,
   by
    have h := retryable_failures_backoff_and_reraise (fun _ => NetResult.resp 503) 2 2
      (fun j _ => Or.inr ⟨503, rfl, by decide⟩)
    simpa [List.range'] using h⟩

/-! ## Python values and the text sanitizers (lines 150-183)

Decoded JSON/Python values are modelled by the mutual inductive family
`PyVal`/`PyList`/`PyDict` (a Python list and dict carried as their own
spines so that decidable equality is derivable).  `str(x)` is `pyStr`,
truthiness is `pyTruthy`, and `a or b` is `pyOr`. -/

mutual

/-- A decoded Python/JSON value as handled by `shipping.py`. -/
inductive PyVal where
  | none
  | bool (b : Bool)
  | int (n : Int)
  | str (s : String)
  | list (xs : PyList)
  | dict (kvs : PyDict)
deriving DecidableEq, Repr

/-- Spine of a Python list of values. -/
inductive PyList where
  | nil
  | cons (hd : PyVal) (tl : PyList)
deriving DecidableEq, Repr

/-- Spine of a Python dict with string keys. -/
inductive PyDict where
  | nil
  | cons (key : String) (val : PyVal) (tl : PyDict)
deriving DecidableEq, Repr

end

/-- Embeds `d.get(key)`: the value at `key`, or `None` when absent.  (Decoded
JSON objects have unique keys; on duplicates this takes the first.) -/
def PyDict.get : PyDict → String → PyVal
  | .nil, _ => PyVal.none
  | .cons k v tl, key => if k = key then v else tl.get key

def PyList.toList : PyList → List PyVal
  | .nil => []
  | .cons h t => h :: t.toList

def PyList.ofList : List PyVal → PyList
  | [] => .nil
  | h :: t => .cons h (PyList.ofList t)

theorem PyList.toList_ofList (l : List PyVal) : (PyList.ofList l).toList = l := by
  induction l with
  | nil => rfl
  | cons h t ih => simp [PyList.ofList, PyList.toList, ih]

mutual

/-- Python `repr` of a value (containers render their elements with
`repr`, as `str` does for containers). -/
def pyRepr : PyVal → String
  | .none => "None"
  | .bool b => if b then "True" else "False"
  | .int n => toString n
  | .str s => "\x27" ++ s ++ "\x27"
  | .list xs => "[" ++ pyReprList xs ++ "]"
  | .dict kvs => "\x7b" ++ pyReprDict kvs ++ "\x7d"

def pyReprList : PyList → String
  | .nil => ""
  | .cons x .nil => pyRepr x
  | .cons x (.cons y t) => pyRepr x ++ ", " ++ pyReprList (.cons y t)

def pyReprDict : PyDict → String
  | .nil => ""
  | .cons k v .nil => "\x27" ++ k ++ "\x27: " ++ pyRepr v
  | .cons k v (.cons k2 v2 t) =>
      "\x27" ++ k ++ "\x27: " ++ pyRepr v ++ ", " ++ pyReprDict (.cons k2 v2 t)

end

/-- Python `str(x)`. -/
def pyStr : PyVal → String
  | .str s => s
  | v => pyRepr v

/-- Python truthiness of a value. -/
def pyTruthy : PyVal → Bool
  | .none => false
  | .bool b => b
  | .int n => n != 0
  | .str s => s != ""
  | .list .nil => false
  | .list (.cons _ _) => true
  | .dict .nil => false
  | .dict (.cons _ _ _) => true

/-- Python `a or b`. -/
def pyOr (a b : PyVal) : PyVal := if pyTruthy a then a else b

/-- The per-character effect of
`.replace("|","/").replace(":", "：")`: both patterns are single
characters and the first substitution never produces a `:`, so the two
replacements compose to one character map. -/
def sanitizeChar (ch : Char) : Char :=
  if ch = '|' then '/' else if ch = ':' then '：' else ch

/-- Embeds `_safe_str` (lines 150-152): `str(x) if x is not None else ""`, then
`|` becomes `/` and `:` becomes a full-width colon. -/
def _safe_str (v : PyVal) : String :=
  let s := match v with | .none => "" | w => pyStr w
  String.mk (s.data.map sanitizeChar)

/-- Python `"|".join(out)`. -/
def pipeJoin : List String → String
  | [] => ""
  | [s] => s
  | s :: t :: r => s ++ "|" ++ pipeJoin (t :: r)

/-- Python `s.strip(":")`: remove all leading and trailing colons. -/
def stripColons (s : String) : String :=
  String.mk (((s.data.dropWhile (· = ':')).reverse.dropWhile (· = ':')).reverse)

/-- The probe chain of `_join_tags`:
`t.get("name") or t.get("label") or t.get("tag") or t.get("value") or
t.get("title")`. -/
def tagLabel (kvs : PyDict) : PyVal :=
  pyOr (kvs.get "name") (pyOr (kvs.get "label") (pyOr (kvs.get "tag")
    (pyOr (kvs.get "value") (kvs.get "title"))))

/-- One list element inside `_join_tags` (lines 157-162). -/
def tagElem : PyVal → String
  | .str s => _safe_str (.str s)
  | .dict kvs =>
      _safe_str (match tagLabel kvs with | .str s => .str s | _ => .dict kvs)
  | t => _safe_str t

/-- Embeds `_join_tags` (lines 154-167). -/
def _join_tags : PyVal → String
  | .list xs => pipeJoin (xs.toList.map tagElem)
  | .dict kvs =>
      if pyTruthy (tagLabel kvs) then pipeJoin [_safe_str (tagLabel kvs)]
      else pipeJoin []
  | .str s => pipeJoin [_safe_str (.str s)]
  | _ => pipeJoin []

/-- The vendor probe of the `_join_carts` LIST branch (line 174):
`c.get("vendor") or c.get("channel") or c.get("platform") or
c.get("site") or ""`. -/
def cartVendor (kvs : PyDict) : PyVal :=
  pyOr (kvs.get "vendor") (pyOr (kvs.get "channel") (pyOr (kvs.get "platform")
    (pyOr (kvs.get "site") (.str ""))))

/-- The name probe of the `_join_carts` LIST branch (line 175):
`c.get("name") or c.get("store") or c.get("account") or ""`. -/
def cartName (kvs : PyDict) : PyVal :=
  pyOr (kvs.get "name") (pyOr (kvs.get "store") (pyOr (kvs.get "account") (.str "")))

/-- One list element inside `_join_carts` (lines 172-177). -/
def cartElem : PyVal → String
  | .dict kvs => stripColons (_safe_str (cartVendor kvs) ++ ":" ++ _safe_str (cartName kvs))
  | c => _safe_str c

/-- Embeds `_join_carts` (lines 169-183).  In the single-mapping branch
(lines 178-181) the fallback probes read the variable `c`, which is not
defined in that scope — the loop variable `c` belongs to the list branch
and is never bound here — so Python raises `NameError` as soon as either
`carts_obj.get("vendor")` or `carts_obj.get("name")` is falsy and the
`or` chain reaches `c.get(...)`. -/
def _join_carts : PyVal → Except String String
  | .list xs => .ok (pipeJoin (xs.toList.map cartElem))
  | .dict kvs =>
      if pyTruthy (kvs.get "vendor") then
        if pyTruthy (kvs.get "name") then
          .ok (stripColons (_safe_str (kvs.get "vendor") ++ ":" ++ _safe_str (kvs.get "name")))
        else .error "NameError: name c is not defined"
      else .error "NameError: name c is not defined"
  | .str s => .ok (_safe_str (.str s))
  | _ => .ok (pipeJoin [])

/-- C7 (code bug): for a carts value that is a single mapping,
`_join_carts` raises `NameError` whenever the vendor probe or the name
probe has to fall past its first key: the fallback probes reference the
undefined variable `c`.  A mapping with only `name` and a mapping with
only `vendor` both raise, while the same mapping passed inside a LIST is
handled by the (correct) list branch and yields `"store1"` — showing the
single-mapping branch was meant to do the same probing. -/
theorem join_carts_single_mapping_raises :
    _join_carts (.dict (.cons "name" (.str "store1") .nil))
      = .error "NameError: name c is not defined"
    ∧ _join_carts (.dict (.cons "vendor" (.str "shopify") .nil))
      = .error "NameError: name c is not defined"
    ∧ _join_carts (.list (.cons (.dict (.cons "name" (.str "store1") .nil)) .nil))
      = .ok "store1" := ⟨rfl, rfl, rfl⟩

/-! ### Round-trip text safety (C8) -/

/-- Splitting a string on the literal character `|`. -/
def splitPipeChars : List Char → List (List Char)
  | [] => [[]]
  | c :: cs =>
    match splitPipeChars cs with
    | [] => [[c]]
    | g :: gs => if c = '|' then [] :: g :: gs else (c :: g) :: gs

/-- Python `s.split("|")`. -/
def splitPipe (s : String) : List String :=
  (splitPipeChars s.data).map (fun l => String.mk l)

theorem sanitizeChar_ne_pipe (ch : Char) : sanitizeChar ch ≠ '|' := by
  unfold sanitizeChar
  split
  · decide
  · split
    · decide
    · assumption

theorem sanitizeChar_ne_colon (ch : Char) : sanitizeChar ch ≠ ':' := by
  unfold sanitizeChar
  split
  · decide
  · split
    · decide
    · assumption

theorem safe_str_no_pipe (v : PyVal) : '|' ∉ (_safe_str v).data := by
  intro h
  unfold _safe_str at h
  obtain ⟨ch, _, hch⟩ := List.mem_map.mp h
  exact sanitizeChar_ne_pipe ch hch

theorem safe_str_no_colon (v : PyVal) : ':' ∉ (_safe_str v).data := by
  intro h
  unfold _safe_str at h
  obtain ⟨ch, _, hch⟩ := List.mem_map.mp h
  exact sanitizeChar_ne_colon ch hch

theorem splitPipeChars_ne_nil (l : List Char) : splitPipeChars l ≠ [] := by
  cases l with
  | nil => simp [splitPipeChars]
  | cons c cs =>
    unfold splitPipeChars
    split
    · simp
    · split <;> simp

theorem splitPipeChars_no_pipe (l : List Char) (h : '|' ∉ l) :
    splitPipeChars l = [l] := by
  induction l with
  | nil => rfl
  | cons c cs ih =>
    have hc : c ≠ '|' := fun hc => h (hc ▸ List.mem_cons_self c cs)
    have hcs : '|' ∉ cs := fun hm => h (List.mem_cons_of_mem c hm)
    unfold splitPipeChars
    rw [ih hcs]
    simp [hc]

theorem splitPipeChars_append (xs rest : List Char) (h : '|' ∉ xs) :
    splitPipeChars (xs ++ '|' :: rest) = xs :: splitPipeChars rest := by
  induction xs with
  | nil =>
    simp only [List.nil_append]
    cases hr : splitPipeChars rest with
    | nil => exact absurd hr (splitPipeChars_ne_nil rest)
    | cons g gs =>
      conv_lhs => rw [splitPipeChars]
      rw [hr]
      simp
  | cons c cs ih =>
    have hc : c ≠ '|' := fun hc => h (hc ▸ List.mem_cons_self c cs)
    have hcs : '|' ∉ cs := fun hm => h (List.mem_cons_of_mem c hm)
    simp only [List.cons_append]
    conv_lhs => rw [splitPipeChars]
    rw [ih hcs]
    simp [hc]

theorem string_mk_data (s : String) : String.mk s.data = s := rfl

/-- Splitting a pipe-join of pipe-free strings on `|` recovers the list. -/
theorem splitPipe_pipeJoin : ∀ (l : List String), l ≠ [] →
    (∀ s ∈ l, '|' ∉ s.data) → splitPipe (pipeJoin l) = l := by
  intro l
  induction l with
  | nil => intro h; exact absurd rfl h
  | cons x t ih =>
    intro _ hnp
    cases t with
    | nil =>
      show splitPipe (pipeJoin [x]) = [x]
      unfold pipeJoin splitPipe
      rw [splitPipeChars_no_pipe x.data (hnp x (List.mem_singleton.mpr rfl))]
      simp [string_mk_data]
    | cons y r =>
      have hx : '|' ∉ x.data := hnp x (List.mem_cons_self _ _)
      have hrest : ∀ s ∈ y :: r, '|' ∉ s.data := fun s hs => hnp s (List.mem_cons_of_mem _ hs)
      show splitPipe (pipeJoin (x :: y :: r)) = x :: y :: r
      unfold pipeJoin
      unfold splitPipe
      have hdata : (x ++ "|" ++ pipeJoin (y :: r)).data
          = x.data ++ '|' :: (pipeJoin (y :: r)).data := by
        simp [String.data_append]
      rw [hdata, splitPipeChars_append _ _ hx]
      have hprev := ih (by simp) hrest
      unfold splitPipe at hprev
      simp only [List.map_cons, string_mk_data]
      rw [hprev]

/-- C8: `_safe_str` output never contains a literal `|` or `:` (they are
replaced by `/` and a full-width colon), so splitting a pipe-joined TAGS
string on `|` recovers the element boundaries; in particular the tags
`["a|b", "c"]` give `TAGS = "a/b|c"`, and `"a|b:c"` sanitizes to
`"a/b：c"`. -/
theorem safe_str_separator_escaping :
    (∀ v : PyVal, '|' ∉ (_safe_str v).data ∧ ':' ∉ (_safe_str v).data)
    ∧ (∀ ts : List String, ts ≠ [] →
        splitPipe (_join_tags (.list (PyList.ofList (ts.map PyVal.str))))
          = ts.map (fun s => _safe_str (.str s)))
    ∧ _join_tags (.list (.cons (.str "a|b") (.cons (.str "c") .nil))) = "a/b|c"
    ∧ _safe_str (.str "a|b:c") = "a/b：c" := by
  refine ⟨fun v => ⟨safe_str_no_pipe v, safe_str_no_colon v⟩, ?_, rfl, rfl⟩
  intro ts hne
  have h1 : _join_tags (.list (PyList.ofList (ts.map PyVal.str)))
      = pipeJoin (ts.map (fun s => _safe_str (.str s))) := by
    show pipeJoin ((PyList.ofList (ts.map PyVal.str)).toList.map tagElem) = _
    rw [PyList.toList_ofList, List.map_map]
    rfl
  rw [h1]
  exact splitPipe_pipeJoin _ (by simpa using hne)
    (fun s hs => by
      obtain ⟨a, _, rfl⟩ := List.mem_map.mp hs
      exact safe_str_no_pipe (.str a))

/-- Witness for C8 at the tags `["p|q", "r"]`. -/
theorem safe_str_separator_escaping_witness :
    ((["p|q", "r"] : List String) ≠ [])
    ∧ splitPipe (_join_tags (.list (PyList.ofList ((["p|q", "r"] : List String).map PyVal.str))))
        = (["p|q", "r"] : List String).map (fun s => _safe_str (.str s)) :=
  ⟨by decide, safe_str_separator_escaping.2.1 ["p|q", "r"] (by decide)⟩

/-! ## Field mapping and run-scoped deduplication (lines 186-231 and 328-346)

Rows are Python dicts, modelled as association lists (all the dicts built
here have pairwise-distinct keys, so first-match lookup agrees with
Python).  Exceptions (`AttributeError` on attribute access of a
non-mapping, `TypeError` on iterating a non-iterable, and the `NameError`
of `_join_carts`) are `Except.error`. -/

/-- Embeds `p.get(k)` as used on a raw record: `AttributeError` unless `p` is a
mapping. -/
def getAttr : PyVal → String → Except String PyVal
  | .dict kvs, k => .ok (kvs.get k)
  | _, _ => .error "AttributeError"

/-- Line 54: `FILTER_ARCHIVED = False`. -/
def FILTER_ARCHIVED : Bool := false

/-- Embeds `_is_archived_like` (lines 186-187). -/
def _is_archived_like (kvs : PyDict) : Bool :=
  pyTruthy (pyOr (kvs.get "archived") (pyOr (kvs.get "is_archived")
    (pyOr (kvs.get "deleted") (kvs.get "is_deleted"))))

/-- A flattened row: a Python dict with string keys. -/
abbrev Row := List (String × PyVal)

/-- Embeds `r.get(k)` on a flattened row. -/
def rowGet (r : Row) (k : String) : PyVal :=
  match r.find? (fun q => q.1 = k) with
  | some q => q.2
  | Option.none => PyVal.none

/-- Embeds `base_product_cols` (lines 189-213): `None` when the archived filter
drops the product (never, since `FILTER_ARCHIVED` is `False`), otherwise
the 21-field product row.  The only raising subexpression is
`_join_carts(p.get("carts") or [])`. -/
def base_product_cols (p : PyVal) : Except String (Option Row) :=
  match p with
  | .dict kvs =>
    if FILTER_ARCHIVED && _is_archived_like kvs then .ok Option.none
    else
      match _join_carts (pyOr (kvs.get "carts") (.list .nil)) with
      | .error e => .error e
      | .ok carts => .ok (some [
          ("PRODUCT_ID", kvs.get "id"),
          ("SKU", kvs.get "sku"),
          ("NAME", kvs.get "name"),
          ("PRICE", kvs.get "price"),
          ("COST", kvs.get "cost"),
          ("UPC", kvs.get "upc"),
          ("ASIN", kvs.get "asin"),
          ("COUNTRY", kvs.get "country_of_origin"),
          ("UPDATED", kvs.get "updated"),
          ("TOTAL_ON_HAND", kvs.get "total_on_hand"),
          ("TOTAL_AVAILABLE", kvs.get "total_available"),
          ("TOTAL_COMMITTED", kvs.get "total_committed"),
          ("TOTAL_ALLOCATED", kvs.get "total_allocated"),
          ("TOTAL_UNALLOCATED", kvs.get "total_unallocated"),
          ("TOTAL_MFG_ORDERED", kvs.get "total_mfg_ordered"),
          ("TO_BE_SHIPPED", kvs.get "to_be_shipped"),
          ("HEIGHT", kvs.get "height"),
          ("WEIGHT", kvs.get "weight"),
          ("WIDTH", kvs.get "width"),
          ("TAGS", .str (_join_tags (kvs.get "tags"))),
          ("CARTS", .str carts)])
  | _ => .error "AttributeError"

def PyDict.keys : PyDict → List String
  | .nil => []
  | .cons k _ tl => k :: tl.keys

/-- Python `for w in X`: lists iterate their elements, strings their
characters, dicts their keys; other values raise `TypeError`. -/
def pyIter : PyVal → Except String (List PyVal)
  | .list xs => .ok xs.toList
  | .str s => .ok (s.data.map (fun c => .str (String.mk [c])))
  | .dict kvs => .ok (kvs.keys.map .str)
  | _ => .error "TypeError"

/-- The merged dict `{**base, "WH_ID": ..., ...}` of lines 220-230; the
warehouse keys are disjoint from the 21 base keys, so appending matches
the later-keys-override merge of Python. -/
def whRow (base : Row) (w : PyDict) : Row :=
  base ++ [
    ("WH_ID", w.get "id"),
    ("WH_NAME", w.get "warehouse_name"),
    ("WH_UPDATED", w.get "updated"),
    ("WH_CREATED", w.get "warehouse_created_date"),
    ("WH_LAST_CHANGE", w.get "warehouse_updated_date"),
    ("LOW_STOCK_THTD", w.get "low_stock_threshold"),
    ("OOS_THTD", w.get "out_of_stock_threshold"),
    ("POH", w.get "physical_on_hand"),
    ("AOH", w.get "available"),
    ("CMT", w.get "committed"),
    ("OMO", w.get "mfg_ordered"),
    ("OPO", w.get "po_committed"),
    ("ON_HAND", w.get "on_hand"),
    ("ALLOCATED", w.get "allocated"),
    ("UNALLOCATED", w.get "unallocated"),
    ("WH_SHIP_CFG", w.get "is_configured_for_shipping"),
    ("WH_IS_DEFAULT", w.get "is_default_location"),
    ("LOCATION", w.get "location_in_warehouse")]

/-- Embeds `rows_for_warehouses` (lines 215-231): one row per warehouse
sub-record that is a mapping; non-mapping entries are skipped. -/
def rows_for_warehouses (p : PyVal) : Except String (List Row) :=
  match base_product_cols p with
  | .error e => .error e
  | .ok Option.none => .ok []
  | .ok (some base) =>
    match p with
    | .dict kvs =>
      match pyIter (pyOr (kvs.get "warehouses") (.list .nil)) with
      | .error e => .error e
      | .ok ws => .ok (ws.filterMap (fun w =>
          match w with
          | .dict wd => some (whRow base wd)
          | _ => Option.none))
    | _ => .error "AttributeError"

/-- The run-scoped identity sets `seen_pid` and `seen_wh` of line 328,
modelled as lists with membership-guarded insertion. -/
structure RunSt where
  seen_pid : List PyVal
  seen_wh : List (PyVal × PyVal × String)
deriving DecidableEq, Repr

/-- Embeds `seen_pid=set(); seen_wh=set()` at run start. -/
def initRunSt : RunSt := ⟨[], []⟩

/-- The product identity used for dedup: `r.get("PRODUCT_ID")`. -/
def rowPid (r : Row) : PyVal := rowGet r "PRODUCT_ID"

/-- Line 344: `key=(r.get("PRODUCT_ID"), r.get("WH_ID"),
str(r.get("WH_UPDATED")))`. -/
def whKey (r : Row) : PyVal × PyVal × String :=
  (rowGet r "PRODUCT_ID", rowGet r "WH_ID", pyStr (rowGet r "WH_UPDATED"))

/-- The inner loop of lines 343-346: admit each warehouse row whose key is
unseen, adding its key to `seen_wh` with the decision. -/
def dedupWh (st : RunSt) : List Row → RunSt × List Row
  | [] => (st, [])
  | r :: rs =>
    if whKey r ∈ st.seen_wh then dedupWh st rs
    else
      let rest := dedupWh ⟨st.seen_pid, whKey r :: st.seen_wh⟩ rs
      (rest.1, r :: rest.2)

/-- The per-record body of the main loop (lines 335-346): skip records
without an id; admit the product row for an unseen id, adding the id to
`seen_pid` with the decision; then dedup the warehouse rows of the record. -/
def processProduct (st : RunSt) (p : PyVal) : Except String (RunSt × List Row × List Row) :=
  match getAttr p "id" with
  | .error e => .error e
  | .ok pid =>
    if pid = PyVal.none then .ok (st, [], [])
    else
      match (if pid ∈ st.seen_pid then
               Except.ok (st, ([] : List Row))
             else
               match base_product_cols p with
               | .error e => .error e
               | .ok (some row) => .ok (⟨pid :: st.seen_pid, st.seen_wh⟩, [row])
               | .ok Option.none => .ok (st, [])) with
      | .error e => .error e
      | .ok (st1, prs) =>
        match rows_for_warehouses p with
        | .error e => .error e
        | .ok wrs =>
          let d := dedupWh st1 wrs
          .ok (d.1, prs, d.2)

/-- Processing a stream of raw records with the run-scoped state threaded
through, collecting all admitted product and warehouse rows.  The batch
structure of `main` only governs write granularity; the admitted rows of
the whole run are the concatenation over the stream. -/
def processStream (st : RunSt) : List PyVal → Except String (RunSt × List Row × List Row)
  | [] => .ok (st, [], [])
  | p :: ps =>
    match processProduct st p with
    | .error e => .error e
    | .ok (st1, pr, wr) =>
      match processStream st1 ps with
      | .error e => .error e
      | .ok (st2, prs, wrs) => .ok (st2, pr ++ prs, wr ++ wrs)

/-- A concrete raw product: id 1, sku "S1", one warehouse entry with id 5
updated "2024-01-01". -/
def prodA : PyVal := .dict (.cons "id" (.int 1) (.cons "sku" (.str "S1")
  (.cons "warehouses" (.list (.cons (.dict (.cons "id" (.int 5)
    (.cons "updated" (.str "2024-01-01") .nil))) .nil)) .nil)))

theorem dedupWh_seen_pid (rows : List Row) : ∀ (st : RunSt),
    (dedupWh st rows).1.seen_pid = st.seen_pid := by
  induction rows with
  | nil => intro st; rfl
  | cons r rs ih =>
    intro st
    unfold dedupWh
    by_cases h : whKey r ∈ st.seen_wh
    · rw [if_pos h]; exact ih st
    · rw [if_neg h]; exact ih ⟨st.seen_pid, whKey r :: st.seen_wh⟩

theorem dedupWh_seen_wh (rows : List Row) : ∀ (st : RunSt) (k : PyVal × PyVal × String),
    k ∈ (dedupWh st rows).1.seen_wh ↔
      k ∈ st.seen_wh ∨ k ∈ (dedupWh st rows).2.map whKey := by
  induction rows with
  | nil => intro st k; simp [dedupWh]
  | cons r rs ih =>
    intro st k
    unfold dedupWh
    by_cases h : whKey r ∈ st.seen_wh
    · rw [if_pos h]
      exact ih st k
    · rw [if_neg h]
      simp only [List.map_cons, List.mem_cons]
      rw [ih ⟨st.seen_pid, whKey r :: st.seen_wh⟩ k]
      simp only [List.mem_cons]
      tauto

theorem dedupWh_nodup_and_fresh (rows : List Row) : ∀ (st : RunSt),
    ((dedupWh st rows).2.map whKey).Nodup
    ∧ ∀ r ∈ (dedupWh st rows).2, whKey r ∉ st.seen_wh := by
  induction rows with
  | nil => intro st; simp [dedupWh]
  | cons r rs ih =>
    intro st
    unfold dedupWh
    by_cases h : whKey r ∈ st.seen_wh
    · rw [if_pos h]
      exact ih st
    · rw [if_neg h]
      obtain ⟨ihn, ihf⟩ := ih ⟨st.seen_pid, whKey r :: st.seen_wh⟩
      constructor
      · simp only [List.map_cons, List.nodup_cons]
        refine ⟨?_, ihn⟩
        intro hmem
        obtain ⟨r2, hr2, hk⟩ := List.mem_map.mp hmem
        have := ihf r2 hr2
        rw [hk] at this
        exact this (List.mem_cons_self _ _)
      · intro r2 hr2
        rcases List.mem_cons.mp hr2 with rfl | hr2
        · exact h
        · intro hmem
          exact ihf r2 hr2 (List.mem_cons_of_mem _ hmem)

theorem dedupWh_covers (rows : List Row) : ∀ (st : RunSt),
    ∀ r ∈ rows, whKey r ∈ (dedupWh st rows).1.seen_wh := by
  induction rows with
  | nil => intro st r hr; simp at hr
  | cons r rs ih =>
    intro st r2 hr2
    unfold dedupWh
    by_cases h : whKey r ∈ st.seen_wh
    · rw [if_pos h]
      rcases List.mem_cons.mp hr2 with rfl | hr2
      · exact (dedupWh_seen_wh rs st (whKey r2)).mpr (Or.inl h)
      · exact ih st r2 hr2
    · rw [if_neg h]
      rcases List.mem_cons.mp hr2 with rfl | hr2
      · exact (dedupWh_seen_wh rs ⟨st.seen_pid, whKey r2 :: st.seen_wh⟩ (whKey r2)).mpr
          (Or.inl (List.mem_cons_self _ _))
      · exact ih ⟨st.seen_pid, whKey r :: st.seen_wh⟩ r2 hr2

theorem base_product_cols_not_none (p : PyVal) :
    base_product_cols p ≠ .ok Option.none := by
  cases p <;> simp [base_product_cols, FILTER_ARCHIVED]
  case dict kvs =>
    cases _join_carts (pyOr (kvs.get "carts") (.list .nil)) <;> simp

theorem base_product_cols_pid (p : PyVal) (row : Row) (pid : PyVal)
    (hb : base_product_cols p = .ok (some row))
    (hg : getAttr p "id" = .ok pid) :
    rowPid row = pid := by
  cases p <;> simp [base_product_cols, FILTER_ARCHIVED] at hb
  case dict kvs =>
    simp [getAttr] at hg
    cases hc : _join_carts (pyOr (kvs.get "carts") (.list .nil)) with
    | error e => rw [hc] at hb; simp at hb
    | ok carts =>
      rw [hc] at hb
      simp at hb
      rw [← hb, ← hg]
      rfl


theorem processProduct_spec (st : RunSt) (p : PyVal) (st' : RunSt) (pr wr : List Row)
    (h : processProduct st p = .ok (st', pr, wr)) :
    (∀ x, x ∈ st'.seen_pid ↔ x ∈ st.seen_pid ∨ x ∈ pr.map rowPid)
    ∧ (∀ r ∈ pr, rowPid r ∉ st.seen_pid)
    ∧ (pr.map rowPid).Nodup
    ∧ (∀ k, k ∈ st'.seen_wh ↔ k ∈ st.seen_wh ∨ k ∈ wr.map whKey)
    ∧ (∀ r ∈ wr, whKey r ∉ st.seen_wh)
    ∧ (wr.map whKey).Nodup
    ∧ (∀ pid, getAttr p "id" = .ok pid → pid ≠ PyVal.none → pid ∈ st'.seen_pid)
    ∧ (∀ pid, getAttr p "id" = .ok pid → pid ≠ PyVal.none →
        ∀ wrs, rows_for_warehouses p = .ok wrs → ∀ r ∈ wrs, whKey r ∈ st'.seen_wh) := by
  cases hg : getAttr p "id" with
  | error e =>
    have heq : processProduct st p = .error e := by simp [processProduct, hg]
    rw [heq] at h
    simp at h
  | ok pid =>
    by_cases hn : pid = PyVal.none
    · subst hn
      have heq : processProduct st p = .ok (st, [], []) := by simp [processProduct, hg]
      rw [heq] at h
      simp only [Except.ok.injEq, Prod.mk.injEq] at h
      obtain ⟨rfl, rfl, rfl⟩ := h
      refine ⟨by simp, by simp, by simp, by simp, by simp, by simp, ?_, ?_⟩
      · intro pid2 hg2 hne
        simp at hg2
        exact absurd hg2.symm hne
      · intro pid2 hg2 hne
        simp at hg2
        exact absurd hg2.symm hne
    · by_cases hs : pid ∈ st.seen_pid
      · cases hw : rows_for_warehouses p with
        | error e =>
          have heq : processProduct st p = .error e := by
            simp [processProduct, hg, hn, hs, hw]
          rw [heq] at h; simp at h
        | ok wrs =>
          have heq : processProduct st p
              = .ok ((dedupWh st wrs).1, [], (dedupWh st wrs).2) := by
            simp [processProduct, hg, hn, hs, hw]
          rw [heq] at h
          simp only [Except.ok.injEq, Prod.mk.injEq] at h
          obtain ⟨rfl, rfl, rfl⟩ := h
          obtain ⟨hnod, hfresh⟩ := dedupWh_nodup_and_fresh wrs st
          refine ⟨?_, by simp, by simp, ?_, hfresh, hnod, ?_, ?_⟩
          · intro x
            rw [dedupWh_seen_pid wrs st]
            simp
          · intro k
            exact dedupWh_seen_wh wrs st k
          · intro pid2 hg2 hne
            simp at hg2
            subst hg2
            rw [dedupWh_seen_pid wrs st]
            exact hs
          · intro pid2 hg2 hne wrs2 hw2 r hr
            simp at hw2
            subst hw2
            exact dedupWh_covers wrs st r hr
      · cases hb : base_product_cols p with
        | error e =>
          have heq : processProduct st p = .error e := by
            simp [processProduct, hg, hn, hs, hb]
          rw [heq] at h; simp at h
        | ok obase =>
          cases obase with
          | none => exact absurd hb (base_product_cols_not_none p)
          | some row =>
            cases hw : rows_for_warehouses p with
            | error e =>
              have heq : processProduct st p = .error e := by
                simp [processProduct, hg, hn, hs, hb, hw]
              rw [heq] at h; simp at h
            | ok wrs =>
              have heq : processProduct st p
                  = .ok ((dedupWh ⟨pid :: st.seen_pid, st.seen_wh⟩ wrs).1, [row],
                         (dedupWh ⟨pid :: st.seen_pid, st.seen_wh⟩ wrs).2) := by
                simp [processProduct, hg, hn, hs, hb, hw]
              rw [heq] at h
              simp only [Except.ok.injEq, Prod.mk.injEq] at h
              obtain ⟨rfl, rfl, rfl⟩ := h
              have hpid : rowPid row = pid := base_product_cols_pid p row pid hb hg
              obtain ⟨hnod, hfresh⟩ :=
                dedupWh_nodup_and_fresh wrs ⟨pid :: st.seen_pid, st.seen_wh⟩
              refine ⟨?_, ?_, by simp, ?_, hfresh, hnod, ?_, ?_⟩
              · intro x
                rw [dedupWh_seen_pid wrs ⟨pid :: st.seen_pid, st.seen_wh⟩]
                simp [hpid, List.mem_cons]
                tauto
              · intro r hr
                rcases List.mem_singleton.mp hr with rfl
                rw [hpid]
                exact hs
              · intro k
                exact dedupWh_seen_wh wrs ⟨pid :: st.seen_pid, st.seen_wh⟩ k
              · intro pid2 hg2 hne
                simp at hg2
                subst hg2
                rw [dedupWh_seen_pid wrs ⟨pid :: st.seen_pid, st.seen_wh⟩]
                exact List.mem_cons_self _ _
              · intro pid2 hg2 hne wrs2 hw2 r hr
                simp at hw2
                subst hw2
                exact dedupWh_covers wrs ⟨pid :: st.seen_pid, st.seen_wh⟩ r hr


theorem processStream_spec (ps : List PyVal) :
    ∀ (st st' : RunSt) (prows wrows : List Row),
    processStream st ps = .ok (st', prows, wrows) →
    (∀ x, x ∈ st'.seen_pid ↔ x ∈ st.seen_pid ∨ x ∈ prows.map rowPid)
    ∧ (∀ r ∈ prows, rowPid r ∉ st.seen_pid)
    ∧ (prows.map rowPid).Nodup
    ∧ (∀ k, k ∈ st'.seen_wh ↔ k ∈ st.seen_wh ∨ k ∈ wrows.map whKey)
    ∧ (∀ r ∈ wrows, whKey r ∉ st.seen_wh)
    ∧ (wrows.map whKey).Nodup
    ∧ (∀ p ∈ ps, ∀ pid, getAttr p "id" = .ok pid → pid ≠ PyVal.none →
        pid ∈ st'.seen_pid)
    ∧ (∀ p ∈ ps, ∀ pid, getAttr p "id" = .ok pid → pid ≠ PyVal.none →
        ∀ wrs, rows_for_warehouses p = .ok wrs → ∀ r ∈ wrs, whKey r ∈ st'.seen_wh) := by
  induction ps with
  | nil =>
    intro st st' prows wrows h
    simp only [processStream, Except.ok.injEq, Prod.mk.injEq] at h
    obtain ⟨rfl, rfl, rfl⟩ := h
    simp
  | cons p ps ih =>
    intro st st' prows wrows h
    simp only [processStream] at h
    cases h1 : processProduct st p with
    | error e =>
      rw [h1] at h
      replace h : (Except.error e : Except String (RunSt × List Row × List Row))
          = Except.ok (st', prows, wrows) := h
      simp at h
    | ok res1 =>
      obtain ⟨st1, pr, wr⟩ := res1
      rw [h1] at h
      replace h : (match processStream st1 ps with
          | Except.error e => (Except.error e : Except String (RunSt × List Row × List Row))
          | Except.ok (st2, prs, wrs) => Except.ok (st2, pr ++ prs, wr ++ wrs))
          = Except.ok (st', prows, wrows) := h
      cases h2 : processStream st1 ps with
      | error e =>
        rw [h2] at h
        replace h : (Except.error e : Except String (RunSt × List Row × List Row))
            = Except.ok (st', prows, wrows) := h
        simp at h
      | ok res2 =>
        obtain ⟨st2, prs, wrs⟩ := res2
        rw [h2] at h
        replace h : (Except.ok (st2, pr ++ prs, wr ++ wrs)
            : Except String (RunSt × List Row × List Row))
            = Except.ok (st', prows, wrows) := h
        simp only [Except.ok.injEq, Prod.mk.injEq] at h
        obtain ⟨rfl, rfl, rfl⟩ := h
        obtain ⟨p1, p2, p3, p4, p5, p6, p7, p8⟩ := processProduct_spec st p st1 pr wr h1
        obtain ⟨s1, s2, s3, s4, s5, s6, s7, s8⟩ := ih st1 st2 prs wrs h2
        refine ⟨?_, ?_, ?_, ?_, ?_, ?_, ?_, ?_⟩
        · intro x
          rw [s1 x]
          simp only [List.map_append, List.mem_append]
          rw [p1 x]
          tauto
        · intro r hr
          rcases List.mem_append.mp hr with hr | hr
          · exact p2 r hr
          · intro hmem
            exact s2 r hr ((p1 (rowPid r)).mpr (Or.inl hmem))
        · rw [List.map_append]
          rw [List.nodup_append]
          refine ⟨p3, s3, ?_⟩
          intro a ha hb
          obtain ⟨r1, hr1, hk1⟩ := List.mem_map.mp ha
          obtain ⟨r2, hr2, hk2⟩ := List.mem_map.mp hb
          have hin : a ∈ st1.seen_pid := (p1 a).mpr (Or.inr ha)
          exact s2 r2 hr2 (hk2 ▸ hin)
        · intro k
          rw [s4 k]
          simp only [List.map_append, List.mem_append]
          rw [p4 k]
          tauto
        · intro r hr
          rcases List.mem_append.mp hr with hr | hr
          · exact p5 r hr
          · intro hmem
            exact s5 r hr ((p4 (whKey r)).mpr (Or.inl hmem))
        · rw [List.map_append]
          rw [List.nodup_append]
          refine ⟨p6, s6, ?_⟩
          intro a ha hb
          obtain ⟨r1, hr1, hk1⟩ := List.mem_map.mp ha
          obtain ⟨r2, hr2, hk2⟩ := List.mem_map.mp hb
          have hin : a ∈ st1.seen_wh := (p4 a).mpr (Or.inr ha)
          exact s5 r2 hr2 (hk2 ▸ hin)
        · intro q hq pid hg hne
          rcases List.mem_cons.mp hq with rfl | hq
          · exact (s1 pid).mpr (Or.inl (p7 pid hg hne))
          · exact s7 q hq pid hg hne
        · intro q hq pid hg hne wrs2 hw2 r hr
          rcases List.mem_cons.mp hq with rfl | hq
          · exact (s4 (whKey r)).mpr (Or.inl (p8 pid hg hne wrs2 hw2 r hr))
          · exact s8 q hq pid hg hne wrs2 hw2 r hr


theorem nodup_filter_eq_length_one {α : Type} [DecidableEq α]
    (l : List α) (a : α) (hnd : l.Nodup) (hmem : a ∈ l) :
    (l.filter (fun x => x = a)).length = 1 := by
  induction l with
  | nil => simp at hmem
  | cons b l ih =>
    rw [List.nodup_cons] at hnd
    by_cases hb : b = a
    · subst hb
      have hnotin : ∀ x ∈ l, ¬ (x = b) := fun x hx he => hnd.1 (he ▸ hx)
      rw [List.filter_cons_of_pos (by simp)]
      rw [List.filter_eq_nil.mpr (by intro x hx; simpa using hnotin x hx)]
      rfl
    · have hmem2 : a ∈ l := by
        rcases List.mem_cons.mp hmem with rfl | hm
        · exact absurd rfl hb
        · exact hm
      rw [List.filter_cons_of_neg (by simpa using hb)]
      exact ih hnd.2 hmem2

/-- C2: within one run, emitted product rows have pairwise-distinct
product ids and emitted warehouse rows have pairwise-distinct
(product id, warehouse id, textual updated-stamp) keys — a key is added to
the identity set together with the admission decision, so no two rows with
the same key are both admitted; moreover every successfully processed
record with a non-null id contributes exactly one product row for that id
(first-seen-wins: feeding the same raw product twice yields one row), and
the key of each of its warehouse rows is admitted exactly once (two warehouse
entries with an identical key triple yield exactly one row). -/
theorem run_dedup (batches : List (List PyVal))
    (st' : RunSt) (prows wrows : List Row)
    (h : processStream initRunSt batches.join = .ok (st', prows, wrows)) :
    (prows.map rowPid).Nodup
    ∧ (wrows.map whKey).Nodup
    ∧ (∀ p ∈ batches.join, ∀ pid, getAttr p "id" = .ok pid → pid ≠ PyVal.none →
        ((prows.map rowPid).filter (fun x => x = pid)).length = 1)
    ∧ (∀ p ∈ batches.join, ∀ pid, getAttr p "id" = .ok pid → pid ≠ PyVal.none →
        ∀ wrs, rows_for_warehouses p = .ok wrs →
          ∀ r ∈ wrs, ((wrows.map whKey).filter (fun k => k = whKey r)).length = 1) := by
  obtain ⟨s1, s2, s3, s4, s5, s6, s7, s8⟩ :=
    processStream_spec batches.join initRunSt st' prows wrows h
  refine ⟨s3, s6, ?_, ?_⟩
  · intro p hp pid hg hne
    have hmem : pid ∈ prows.map rowPid := by
      have := (s1 pid).mp (s7 p hp pid hg hne)
      simpa [initRunSt] using this
    exact nodup_filter_eq_length_one _ _ s3 hmem
  · intro p hp pid hg hne wrs hw r hr
    have hmem : whKey r ∈ wrows.map whKey := by
      have := (s4 (whKey r)).mp (s8 p hp pid hg hne wrs hw r hr)
      simpa [initRunSt] using this
    exact nodup_filter_eq_length_one _ _ s6 hmem



/-- Witness for C2: a product with id 1 and one warehouse entry, fed twice
in two batches, yields exactly one product row with id 1 and exactly one
warehouse row with its key. -/
theorem run_dedup_witness :
    (prodA ∈ ([[prodA], [prodA]] : List (List PyVal)).join)
    ∧ ((((processStream initRunSt ([[prodA], [prodA]] : List (List PyVal)).join).toOption.getD
          (initRunSt, [], [])).2.1.map rowPid).filter
          (fun x => x = PyVal.int 1)).length = 1
    ∧ ((((processStream initRunSt ([[prodA], [prodA]] : List (List PyVal)).join).toOption.getD
          (initRunSt, [], [])).2.2.map whKey).filter
          (fun k => k = whKey (((rows_for_warehouses prodA).toOption.getD []).getD 0 []))).length
        = 1 := by
  have h : processStream initRunSt ([[prodA], [prodA]] : List (List PyVal)).join
      = .ok ((processStream initRunSt ([[prodA], [prodA]] : List (List PyVal)).join).toOption.getD
          (initRunSt, [], [])) := rfl
  obtain ⟨n1, n2, c3, c4⟩ := run_dedup [[prodA], [prodA]] _ _ _ h
  refine ⟨by decide, ?_, ?_⟩
  · exact c3 prodA (by decide) (.int 1) rfl (by decide)
  · exact c4 prodA (by decide) (.int 1) rfl (by decide)
      ((rows_for_warehouses prodA).toOption.getD []) rfl
      (((rows_for_warehouses prodA).toOption.getD []).getD 0 []) (by decide)


/-! ## Type-coercion/cleaning stage (`clean_products_df` / `clean_wh_df`,
lines 234-282)

A `pandas` dataframe is modelled columnar: an ordered association list
from column names to equal-length columns of cells.  `pd.to_numeric`,
`pd.to_datetime`, `.round`, `.fillna(0)`, `.astype` become cell maps;
`df.reindex(columns=T)` keeps present columns and fills missing ones with
nulls.  The string-to-number parser models plain decimal literals (the
only feature of `pandas` parsing these claims depend on is whether a value
parses at all); `.round` uses round-half-to-even as `numpy` does;
`_strip_tz` is the identity because modelled timestamps carry no zone. -/

inductive Cell where
  | null
  | num (q : ℚ)
  | str (s : String)
  | bool (b : Bool)
  | time (t : Int)
deriving DecidableEq, Repr

structure DF where
  cols : List (String × List Cell)
deriving DecidableEq, Repr

def DF.nrows (df : DF) : Nat :=
  match df.cols with
  | [] => 0
  | (_, d) :: _ => d.length

def DF.colNames (df : DF) : List String := df.cols.map Prod.fst

def getColData (df : DF) (c : String) : Option (List Cell) :=
  (df.cols.find? (fun p => p.1 = c)).map Prod.snd

def hasCol (df : DF) (c : String) : Bool :=
  df.cols.any (fun p => p.1 = c)

def mapCol (df : DF) (c : String) (f : Cell → Cell) : DF :=
  ⟨df.cols.map (fun p => if p.1 = c then (p.1, p.2.map f) else p)⟩

def reindexEntry (df : DF) (c : String) : String × List Cell :=
  match getColData df c with
  | some d => (c, d)
  | Option.none => (c, List.replicate df.nrows Cell.null)

def reindexDF (df : DF) (target : List String) : DF :=
  ⟨target.map (reindexEntry df)⟩

def wellFormed (df : DF) : Prop := ∀ p ∈ df.cols, p.2.length = df.nrows

-- ===== numeric parsing model =====

def digitsVal (l : List Char) : Nat :=
  l.foldl (fun a c => a * 10 + (c.toNat - 48)) 0

def parseRat (s : String) : Option ℚ :=
  let l := s.data
  let (sign, l) : ℚ × List Char :=
    match l with
    | '-' :: rest => (-1, rest)
    | '+' :: rest => (1, rest)
    | l => (1, l)
  match l.splitOn '.' with
  | [ip] =>
    if ip ≠ [] ∧ ip.all Char.isDigit then some (sign * digitsVal ip) else Option.none
  | [ip, fp] =>
    if (ip ++ fp) ≠ [] ∧ (ip ++ fp).all Char.isDigit then
      some (sign * ((digitsVal ip : ℚ) + (digitsVal fp : ℚ) / ((10 : ℚ) ^ fp.length)))
    else Option.none
  | _ => Option.none

def toNumericCell : Cell → Cell
  | .null => .null
  | .num q => .num q
  | .str s => match parseRat s with | some q => .num q | Option.none => .null
  | .bool b => .num (if b then 1 else 0)
  | .time t => .num t

def roundHalfEven (q : ℚ) : ℤ :=
  let f := ⌊q⌋
  let r := q - f
  if r < 1/2 then f
  else if 1/2 < r then f + 1
  else if f % 2 = 0 then f else f + 1

def roundCell2 : Cell → Cell
  | .num q => .num ((roundHalfEven (q * 100) : ℚ) / 100)
  | c => c

def cleanMoneyCell (c : Cell) : Cell := roundCell2 (toNumericCell c)

def cleanQtyCell (c : Cell) : Cell :=
  match toNumericCell c with
  | .null => .num 0
  | .num q => .num ((roundHalfEven q : ℚ))
  | c => c

def parseDateLike (s : String) : Option Int :=
  if s.data ≠ [] ∧ s.data.all (fun c => c.isDigit ∨ c = '-' ∨ c = ':' ∨ c = ' ' ∨ c = 'T')
      ∧ s.data.any Char.isDigit then
    some (digitsVal (s.data.filter Char.isDigit))
  else Option.none

def toDatetimeCell : Cell → Cell
  | .time t => .time t
  | .str s => match parseDateLike s with | some t => .time t | Option.none => .null
  | .num q => .time ⌊q⌋
  | _ => .null

def stripTzCell (c : Cell) : Cell := c

def toBooleanCell : Cell → Cell
  | .bool b => .bool b
  | .null => .null
  | .num q => .bool (q ≠ 0)
  | c => c

-- ===== target schemas =====

def PRODUCT_TARGET_COLS : List String := [
  "PRODUCT_ID","SKU","NAME","PRICE","COST","UPC","ASIN","COUNTRY","UPDATED",
  "TOTAL_ON_HAND","TOTAL_AVAILABLE","TOTAL_COMMITTED","TOTAL_ALLOCATED",
  "TOTAL_UNALLOCATED","TOTAL_MFG_ORDERED","TO_BE_SHIPPED","HEIGHT","WEIGHT","WIDTH","TAGS","CARTS"]

def WAREHOUSE_TARGET_COLS : List String := [
  "PRODUCT_ID","SKU","NAME","PRICE","COST","UPC","ASIN","COUNTRY","UPDATED",
  "TOTAL_ON_HAND","TOTAL_AVAILABLE","TOTAL_COMMITTED","TOTAL_ALLOCATED",
  "TOTAL_UNALLOCATED","TOTAL_MFG_ORDERED","TO_BE_SHIPPED","HEIGHT","WEIGHT","WIDTH","TAGS","CARTS",
  "WH_ID","WH_NAME","WH_UPDATED","WH_CREATED","WH_LAST_CHANGE",
  "LOW_STOCK_THTD","OOS_THTD","POH","AOH","CMT","OMO","OPO","ON_HAND","ALLOCATED","UNALLOCATED",
  "WH_SHIP_CFG","WH_IS_DEFAULT","LOCATION"]

def PRODUCT_QTY_COLS : List String := [
  "TOTAL_ON_HAND","TOTAL_AVAILABLE","TOTAL_COMMITTED","TOTAL_ALLOCATED",
  "TOTAL_UNALLOCATED","TOTAL_MFG_ORDERED","TO_BE_SHIPPED"]

def WAREHOUSE_QTY_COLS : List String := [
  "LOW_STOCK_THTD","OOS_THTD","POH","AOH","CMT","OMO","OPO","ON_HAND","ALLOCATED","UNALLOCATED"]

/-- The `for c in cols: if c in df.columns: df[c] = f(df[c])` idiom. -/
def applyColList (df : DF) (cs : List String) (f : Cell → Cell) : DF :=
  cs.foldl (fun d c => if hasCol d c then mapCol d c f else d) df

/-- Embeds `clean_products_df` (lines 257-267). -/
def clean_products_df (df : DF) : DF :=
  if df.nrows = 0 then reindexDF df PRODUCT_TARGET_COLS
  else
    let df1 := if hasCol df "UPDATED" then
        mapCol df "UPDATED" (fun c => stripTzCell (toDatetimeCell c)) else df
    let df2 := applyColList df1 ["PRICE", "COST"] cleanMoneyCell
    let df3 := applyColList df2 PRODUCT_QTY_COLS cleanQtyCell
    let df4 := applyColList df3 ["HEIGHT", "WEIGHT", "WIDTH", "PRODUCT_ID"] toNumericCell
    reindexDF df4 PRODUCT_TARGET_COLS

/-- Embeds `clean_wh_df` (lines 269-282). -/
def clean_wh_df (df : DF) : DF :=
  if df.nrows = 0 then reindexDF df WAREHOUSE_TARGET_COLS
  else
    let df1 := applyColList df ["UPDATED", "WH_UPDATED", "WH_CREATED", "WH_LAST_CHANGE"]
      (fun c => stripTzCell (toDatetimeCell c))
    let df2 := applyColList df1 ["PRICE", "COST"] cleanMoneyCell
    let df3 := applyColList df2 (WAREHOUSE_QTY_COLS ++ ["PRODUCT_ID", "WH_ID"]) cleanQtyCell
    let df4 := applyColList df3 ["HEIGHT", "WEIGHT", "WIDTH"] toNumericCell
    let df5 := applyColList df4 ["WH_SHIP_CFG", "WH_IS_DEFAULT"] toBooleanCell
    reindexDF df5 WAREHOUSE_TARGET_COLS

-- ===== column plumbing lemmas =====

theorem mapCol_colNames (df : DF) (c : String) (f : Cell → Cell) :
    (mapCol df c f).colNames = df.colNames := by
  unfold mapCol DF.colNames
  simp only [List.map_map]
  apply List.map_congr_left
  intro p _
  by_cases h : p.1 = c <;> simp [h]

theorem mapCol_nrows (df : DF) (c : String) (f : Cell → Cell) :
    (mapCol df c f).nrows = df.nrows := by
  unfold mapCol DF.nrows
  cases df.cols with
  | nil => rfl
  | cons p ps =>
    by_cases h : p.1 = c <;> simp [h]

theorem mapCol_hasCol (df : DF) (c c2 : String) (f : Cell → Cell) :
    hasCol (mapCol df c f) c2 = hasCol df c2 := by
  unfold mapCol hasCol
  induction df.cols with
  | nil => rfl
  | cons p ps ih =>
    simp only [List.map_cons, List.any_cons]
    rw [ih]
    by_cases h : p.1 = c <;> simp [h]

theorem mapCol_getColData_same (df : DF) (c : String) (f : Cell → Cell) :
    getColData (mapCol df c f) c = (getColData df c).map (List.map f) := by
  unfold mapCol getColData
  induction df.cols with
  | nil => rfl
  | cons p ps ih =>
    by_cases h : p.1 = c
    · simp [List.find?_cons_of_pos, h]
    · simp only [List.map_cons]
      rw [List.find?_cons_of_neg _ (by simp [h]),
          List.find?_cons_of_neg _ (by simp [h])]
      exact ih

theorem mapCol_getColData_other (df : DF) (c c2 : String) (f : Cell → Cell)
    (hne : c2 ≠ c) :
    getColData (mapCol df c f) c2 = getColData df c2 := by
  unfold mapCol getColData
  induction df.cols with
  | nil => rfl
  | cons p ps ih =>
    simp only [List.map_cons]
    by_cases h : p.1 = c2
    · have hpc : p.1 ≠ c := by rw [h]; exact hne
      rw [if_neg hpc]
      rw [List.find?_cons_of_pos _ (by simp [h]), List.find?_cons_of_pos _ (by simp [h])]
    · by_cases hpc : p.1 = c
      · rw [if_pos hpc]
        rw [List.find?_cons_of_neg _ (by simp [h]), List.find?_cons_of_neg _ (by simp [h])]
        exact ih
      · rw [if_neg hpc]
        rw [List.find?_cons_of_neg _ (by simp [h]), List.find?_cons_of_neg _ (by simp [h])]
        exact ih

theorem hasCol_false_getColData (df : DF) (c : String) (h : hasCol df c = false) :
    getColData df c = Option.none := by
  unfold hasCol at h
  unfold getColData
  rw [List.find?_eq_none.mpr]
  · rfl
  · intro p hp
    simp only [List.any_eq_false] at h
    simpa using h p hp

theorem hasCol_true_getColData (df : DF) (c : String) (h : hasCol df c = true) :
    ∃ d, getColData df c = some d := by
  unfold hasCol at h
  obtain ⟨p, hp, hpc⟩ := List.any_eq_true.mp h
  unfold getColData
  cases hf : df.cols.find? (fun q => q.1 = c) with
  | none =>
    rw [List.find?_eq_none] at hf
    exact absurd hpc (by simpa using hf p hp)
  | some q => exact ⟨q.2, rfl⟩

theorem applyColList_colNames (cs : List String) (df : DF) (f : Cell → Cell) :
    (applyColList df cs f).colNames = df.colNames := by
  induction cs generalizing df with
  | nil => rfl
  | cons c cs ih =>
    unfold applyColList
    simp only [List.foldl_cons]
    by_cases h : hasCol df c
    · rw [if_pos h]
      rw [show List.foldl _ (mapCol df c f) cs = applyColList (mapCol df c f) cs f from rfl]
      rw [ih (mapCol df c f)]
      exact mapCol_colNames df c f
    · rw [if_neg h]
      exact ih df

theorem applyColList_nrows (cs : List String) (df : DF) (f : Cell → Cell) :
    (applyColList df cs f).nrows = df.nrows := by
  induction cs generalizing df with
  | nil => rfl
  | cons c cs ih =>
    unfold applyColList
    simp only [List.foldl_cons]
    by_cases h : hasCol df c
    · rw [if_pos h]
      rw [show List.foldl _ (mapCol df c f) cs = applyColList (mapCol df c f) cs f from rfl]
      rw [ih (mapCol df c f)]
      exact mapCol_nrows df c f
    · rw [if_neg h]
      exact ih df

theorem applyColList_hasCol (cs : List String) (df : DF) (c2 : String) (f : Cell → Cell) :
    hasCol (applyColList df cs f) c2 = hasCol df c2 := by
  induction cs generalizing df with
  | nil => rfl
  | cons c cs ih =>
    unfold applyColList
    simp only [List.foldl_cons]
    by_cases h : hasCol df c
    · rw [if_pos h]
      rw [show List.foldl _ (mapCol df c f) cs = applyColList (mapCol df c f) cs f from rfl]
      rw [ih (mapCol df c f)]
      exact mapCol_hasCol df c c2 f
    · rw [if_neg h]
      exact ih df

theorem applyColList_getColData_notin (cs : List String) (df : DF) (c2 : String)
    (f : Cell → Cell) (h : c2 ∉ cs) :
    getColData (applyColList df cs f) c2 = getColData df c2 := by
  induction cs generalizing df with
  | nil => rfl
  | cons c cs ih =>
    have hne : c2 ≠ c := fun he => h (he ▸ List.mem_cons_self c cs)
    have hni : c2 ∉ cs := fun hm => h (List.mem_cons_of_mem c hm)
    unfold applyColList
    simp only [List.foldl_cons]
    by_cases hh : hasCol df c
    · rw [if_pos hh]
      rw [show List.foldl _ (mapCol df c f) cs = applyColList (mapCol df c f) cs f from rfl]
      rw [ih (mapCol df c f) hni]
      exact mapCol_getColData_other df c c2 f hne
    · rw [if_neg hh]
      exact ih df hni

theorem applyColList_getColData_mem (cs : List String) (df : DF) (c : String)
    (f : Cell → Cell) (hnd : cs.Nodup) (hc : c ∈ cs) (hh : hasCol df c = true) :
    getColData (applyColList df cs f) c = (getColData df c).map (List.map f) := by
  induction cs generalizing df with
  | nil => simp at hc
  | cons c0 cs ih =>
    rw [List.nodup_cons] at hnd
    unfold applyColList
    simp only [List.foldl_cons]
    rcases List.mem_cons.mp hc with rfl | hc2
    · rw [if_pos hh]
      rw [show List.foldl _ (mapCol df c f) cs = applyColList (mapCol df c f) cs f from rfl]
      rw [applyColList_getColData_notin cs (mapCol df c f) c f hnd.1]
      exact mapCol_getColData_same df c f
    · have hne : c ≠ c0 := fun he => hnd.1 (he ▸ hc2)
      by_cases hh0 : hasCol df c0
      · rw [if_pos hh0]
        rw [show List.foldl _ (mapCol df c0 f) cs = applyColList (mapCol df c0 f) cs f from rfl]
        rw [ih (mapCol df c0 f) hnd.2 hc2 (by rw [mapCol_hasCol]; exact hh)]
        rw [mapCol_getColData_other df c0 c f hne]
      · rw [if_neg hh0]
        exact ih df hnd.2 hc2 hh

theorem reindexEntry_fst (df : DF) (c : String) : (reindexEntry df c).1 = c := by
  unfold reindexEntry
  cases getColData df c <;> rfl

theorem reindexDF_colNames (df : DF) (t : List String) :
    (reindexDF df t).colNames = t := by
  unfold reindexDF DF.colNames
  rw [List.map_map]
  have h : ∀ c ∈ t, (Prod.fst ∘ reindexEntry df) c = id c := by
    intro c _
    simp only [Function.comp_apply, id_eq]
    exact reindexEntry_fst df c
  rw [List.map_congr_left h, List.map_id]

theorem reindexDF_find (df : DF) (t : List String) (c : String) (hc : c ∈ t) :
    (t.map (reindexEntry df)).find? (fun p => p.1 = c) = some (reindexEntry df c) := by
  induction t with
  | nil => simp at hc
  | cons c0 t ih =>
    simp only [List.map_cons]
    by_cases h : c0 = c
    · subst h
      rw [List.find?_cons_of_pos _ (by simp [reindexEntry_fst])]
    · rw [List.find?_cons_of_neg _ (by simp [reindexEntry_fst, h])]
      refine ih ?_
      rcases List.mem_cons.mp hc with rfl | hm
      · exact absurd rfl h
      · exact hm

theorem reindexDF_getColData_present (df : DF) (t : List String) (c : String)
    (d : List Cell) (hc : c ∈ t) (hg : getColData df c = some d) :
    getColData (reindexDF df t) c = some d := by
  show ((reindexDF df t).cols.find? (fun p => p.1 = c)).map Prod.snd = some d
  rw [show (reindexDF df t).cols = t.map (reindexEntry df) from rfl]
  rw [reindexDF_find df t c hc]
  unfold reindexEntry
  rw [hg]
  rfl

theorem reindexDF_getColData_missing (df : DF) (t : List String) (c : String)
    (hc : c ∈ t) (hg : getColData df c = Option.none) :
    getColData (reindexDF df t) c = some (List.replicate df.nrows Cell.null) := by
  show ((reindexDF df t).cols.find? (fun p => p.1 = c)).map Prod.snd = _
  rw [show (reindexDF df t).cols = t.map (reindexEntry df) from rfl]
  rw [reindexDF_find df t c hc]
  unfold reindexEntry
  rw [hg]
  rfl


theorem toNumericCell_null_or_num (c : Cell) :
    toNumericCell c = Cell.null ∨ ∃ q, toNumericCell c = Cell.num q := by
  cases c with
  | null => exact Or.inl rfl
  | num q => exact Or.inr ⟨q, rfl⟩
  | str s =>
    show (match parseRat s with
      | some q => Cell.num q
      | Option.none => Cell.null) = Cell.null
      ∨ ∃ q, (match parseRat s with
        | some q => Cell.num q
        | Option.none => Cell.null) = Cell.num q
    cases parseRat s with
    | none => exact Or.inl rfl
    | some q => exact Or.inr ⟨q, rfl⟩
  | bool b => exact Or.inr ⟨if b then 1 else 0, rfl⟩
  | time t => exact Or.inr ⟨t, rfl⟩

theorem cleanQtyCell_ne_null (c : Cell) : cleanQtyCell c ≠ Cell.null := by
  unfold cleanQtyCell
  rcases toNumericCell_null_or_num c with h | ⟨q, h⟩ <;> rw [h] <;> simp

theorem cleanQtyCell_of_unparsable (c : Cell) (h : toNumericCell c = Cell.null) :
    cleanQtyCell c = Cell.num 0 := by
  unfold cleanQtyCell
  rw [h]

theorem clean_products_qty_data (df : DF) (c : String) (hc : c ∈ PRODUCT_QTY_COLS)
    (hh : hasCol df c = true) (hnz : ¬ df.nrows = 0) :
    ∃ d, getColData df c = some d ∧
      getColData (clean_products_df df) c = some (d.map cleanQtyCell) := by
  have hfacts : ∀ x ∈ PRODUCT_QTY_COLS, x ≠ "UPDATED"
      ∧ x ∉ ["PRICE", "COST"]
      ∧ x ∉ ["HEIGHT", "WEIGHT", "WIDTH", "PRODUCT_ID"]
      ∧ x ∈ PRODUCT_TARGET_COLS := by decide
  obtain ⟨hne_u, hni_m, hni_d, hmem_t⟩ := hfacts c hc
  have hnd : PRODUCT_QTY_COLS.Nodup := by decide
  obtain ⟨d, hd⟩ := hasCol_true_getColData df c hh
  refine ⟨d, hd, ?_⟩
  unfold clean_products_df
  rw [if_neg hnz]
  show getColData (reindexDF (applyColList (applyColList (applyColList
      (if hasCol df "UPDATED" then
        mapCol df "UPDATED" (fun x => stripTzCell (toDatetimeCell x)) else df)
      ["PRICE", "COST"] cleanMoneyCell)
      PRODUCT_QTY_COLS cleanQtyCell)
      ["HEIGHT", "WEIGHT", "WIDTH", "PRODUCT_ID"] toNumericCell)
      PRODUCT_TARGET_COLS) c = some (d.map cleanQtyCell)
  set A := if hasCol df "UPDATED" then
    mapCol df "UPDATED" (fun x => stripTzCell (toDatetimeCell x)) else df with hA
  have e1 : getColData A c = some d := by
    rw [hA]
    by_cases hu : hasCol df "UPDATED"
    · rw [if_pos hu, mapCol_getColData_other df "UPDATED" c _ hne_u]
      exact hd
    · rw [if_neg hu]
      exact hd
  have h1 : hasCol A c = true := by
    rw [hA]
    by_cases hu : hasCol df "UPDATED"
    · rw [if_pos hu, mapCol_hasCol]
      exact hh
    · rw [if_neg hu]
      exact hh
  set B := applyColList A ["PRICE", "COST"] cleanMoneyCell with hB
  have e2 : getColData B c = some d := by
    rw [hB, applyColList_getColData_notin ["PRICE", "COST"] A c cleanMoneyCell hni_m]
    exact e1
  have h2 : hasCol B c = true := by
    rw [hB, applyColList_hasCol]
    exact h1
  set D3 := applyColList B PRODUCT_QTY_COLS cleanQtyCell with hD3
  have e3 : getColData D3 c = some (d.map cleanQtyCell) := by
    rw [hD3, applyColList_getColData_mem PRODUCT_QTY_COLS B c cleanQtyCell hnd hc h2, e2]
    rfl
  set D4 := applyColList D3 ["HEIGHT", "WEIGHT", "WIDTH", "PRODUCT_ID"] toNumericCell
    with hD4
  have e4 : getColData D4 c = some (d.map cleanQtyCell) := by
    rw [hD4, applyColList_getColData_notin
      ["HEIGHT", "WEIGHT", "WIDTH", "PRODUCT_ID"] D3 c toNumericCell hni_d]
    exact e3
  exact reindexDF_getColData_present D4 PRODUCT_TARGET_COLS c _ hmem_t e4

theorem clean_wh_qty_data (df : DF) (c : String)
    (hc : c ∈ WAREHOUSE_QTY_COLS ++ ["PRODUCT_ID", "WH_ID"])
    (hh : hasCol df c = true) (hnz : ¬ df.nrows = 0) :
    ∃ d, getColData df c = some d ∧
      getColData (clean_wh_df df) c = some (d.map cleanQtyCell) := by
  have hfacts : ∀ x ∈ WAREHOUSE_QTY_COLS ++ ["PRODUCT_ID", "WH_ID"],
      x ∉ ["UPDATED", "WH_UPDATED", "WH_CREATED", "WH_LAST_CHANGE"]
      ∧ x ∉ ["PRICE", "COST"]
      ∧ x ∉ ["HEIGHT", "WEIGHT", "WIDTH"]
      ∧ x ∉ ["WH_SHIP_CFG", "WH_IS_DEFAULT"]
      ∧ x ∈ WAREHOUSE_TARGET_COLS := by decide
  obtain ⟨hni_t, hni_m, hni_d, hni_b, hmem_t⟩ := hfacts c hc
  have hnd : (WAREHOUSE_QTY_COLS ++ ["PRODUCT_ID", "WH_ID"]).Nodup := by decide
  obtain ⟨d, hd⟩ := hasCol_true_getColData df c hh
  refine ⟨d, hd, ?_⟩
  unfold clean_wh_df
  rw [if_neg hnz]
  show getColData (reindexDF (applyColList (applyColList (applyColList (applyColList
      (applyColList df ["UPDATED", "WH_UPDATED", "WH_CREATED", "WH_LAST_CHANGE"]
        (fun x => stripTzCell (toDatetimeCell x)))
      ["PRICE", "COST"] cleanMoneyCell)
      (WAREHOUSE_QTY_COLS ++ ["PRODUCT_ID", "WH_ID"]) cleanQtyCell)
      ["HEIGHT", "WEIGHT", "WIDTH"] toNumericCell)
      ["WH_SHIP_CFG", "WH_IS_DEFAULT"] toBooleanCell)
      WAREHOUSE_TARGET_COLS) c = some (d.map cleanQtyCell)
  set A := applyColList df ["UPDATED", "WH_UPDATED", "WH_CREATED", "WH_LAST_CHANGE"]
    (fun x => stripTzCell (toDatetimeCell x)) with hA
  have e1 : getColData A c = some d := by
    rw [hA, applyColList_getColData_notin
      ["UPDATED", "WH_UPDATED", "WH_CREATED", "WH_LAST_CHANGE"] df c
      (fun x => stripTzCell (toDatetimeCell x)) hni_t]
    exact hd
  have h1 : hasCol A c = true := by
    rw [hA, applyColList_hasCol]
    exact hh
  set B := applyColList A ["PRICE", "COST"] cleanMoneyCell with hB
  have e2 : getColData B c = some d := by
    rw [hB, applyColList_getColData_notin ["PRICE", "COST"] A c cleanMoneyCell hni_m]
    exact e1
  have h2 : hasCol B c = true := by
    rw [hB, applyColList_hasCol]
    exact h1
  set D3 := applyColList B (WAREHOUSE_QTY_COLS ++ ["PRODUCT_ID", "WH_ID"]) cleanQtyCell
    with hD3
  have e3 : getColData D3 c = some (d.map cleanQtyCell) := by
    rw [hD3, applyColList_getColData_mem (WAREHOUSE_QTY_COLS ++ ["PRODUCT_ID", "WH_ID"])
      B c cleanQtyCell hnd hc h2, e2]
    rfl
  set D4 := applyColList D3 ["HEIGHT", "WEIGHT", "WIDTH"] toNumericCell with hD4
  have e4 : getColData D4 c = some (d.map cleanQtyCell) := by
    rw [hD4, applyColList_getColData_notin
      ["HEIGHT", "WEIGHT", "WIDTH"] D3 c toNumericCell hni_d]
    exact e3
  set D5 := applyColList D4 ["WH_SHIP_CFG", "WH_IS_DEFAULT"] toBooleanCell with hD5
  have e5 : getColData D5 c = some (d.map cleanQtyCell) := by
    rw [hD5, applyColList_getColData_notin
      ["WH_SHIP_CFG", "WH_IS_DEFAULT"] D4 c toBooleanCell hni_b]
    exact e4
  exact reindexDF_getColData_present D5 WAREHOUSE_TARGET_COLS c _ hmem_t e5

theorem clean_empty_cols (df : DF) (t : List String) (hwf : wellFormed df)
    (hz : df.nrows = 0) :
    (reindexDF df t).cols = t.map (fun c => (c, ([] : List Cell))) := by
  unfold reindexDF
  apply List.map_congr_left
  intro c _
  unfold reindexEntry
  cases hg : getColData df c with
  | none => rw [hz]; rfl
  | some d =>
    have hmem : ∃ p ∈ df.cols, p.2 = d := by
      unfold getColData at hg
      cases hf : df.cols.find? (fun p => p.1 = c) with
      | none => rw [hf] at hg; simp at hg
      | some q =>
        rw [hf] at hg
        simp at hg
        exact ⟨q, List.mem_of_find?_eq_some hf, hg⟩
    obtain ⟨p, hp, hpd⟩ := hmem
    have := hwf p hp
    rw [hz, hpd] at this
    rw [List.length_eq_zero] at this
    rw [this]


/-- C4 (amended): for every input batch the cleaned output has exactly the
target columns in the fixed target order; an empty input batch yields a
zero-row table that still has all target columns; and every
quantity-family column that is PRESENT in the input is non-null in every
row of the output.  (A quantity column absent from the input is created by
the final reindex as an all-null column — see the counterexample — so the
unconditional non-null guarantee of the claim only holds for batches carrying
their quantity columns, as all flattener-produced batches do.) -/
theorem clean_schema_conformance (df : DF) (hwf : wellFormed df) :
    (clean_products_df df).colNames = PRODUCT_TARGET_COLS
    ∧ (clean_wh_df df).colNames = WAREHOUSE_TARGET_COLS
    ∧ (df.nrows = 0 →
        (clean_products_df df).cols
            = PRODUCT_TARGET_COLS.map (fun c => (c, ([] : List Cell)))
        ∧ (clean_wh_df df).cols
            = WAREHOUSE_TARGET_COLS.map (fun c => (c, ([] : List Cell))))
    ∧ (∀ c ∈ PRODUCT_QTY_COLS, hasCol df c = true →
        ∀ dta, getColData (clean_products_df df) c = some dta →
          ∀ cell ∈ dta, cell ≠ Cell.null)
    ∧ (∀ c ∈ WAREHOUSE_QTY_COLS ++ ["PRODUCT_ID", "WH_ID"], hasCol df c = true →
        ∀ dta, getColData (clean_wh_df df) c = some dta →
          ∀ cell ∈ dta, cell ≠ Cell.null) := by
  refine ⟨?_, ?_, ?_, ?_, ?_⟩
  · unfold clean_products_df
    split <;> exact reindexDF_colNames _ _
  · unfold clean_wh_df
    split <;> exact reindexDF_colNames _ _
  · intro hz
    constructor
    · unfold clean_products_df
      rw [if_pos hz]
      exact clean_empty_cols df PRODUCT_TARGET_COLS hwf hz
    · unfold clean_wh_df
      rw [if_pos hz]
      exact clean_empty_cols df WAREHOUSE_TARGET_COLS hwf hz
  · intro c hc hh dta hget cell hcell
    have hmem_t : c ∈ PRODUCT_TARGET_COLS := by
      have : ∀ x ∈ PRODUCT_QTY_COLS, x ∈ PRODUCT_TARGET_COLS := by decide
      exact this c hc
    by_cases hz : df.nrows = 0
    · have hempty : dta = [] := by
        unfold clean_products_df at hget
        rw [if_pos hz] at hget
        cases hg : getColData df c with
        | none =>
          rw [reindexDF_getColData_missing df PRODUCT_TARGET_COLS c hmem_t hg] at hget
          rw [hz] at hget
          simpa using hget.symm
        | some d =>
          rw [reindexDF_getColData_present df PRODUCT_TARGET_COLS c d hmem_t hg] at hget
          have hdp : ∃ p ∈ df.cols, p.2 = d := by
            unfold getColData at hg
            cases hf : df.cols.find? (fun p => p.1 = c) with
            | none => rw [hf] at hg; simp at hg
            | some q =>
              rw [hf] at hg
              simp at hg
              exact ⟨q, List.mem_of_find?_eq_some hf, hg⟩
          obtain ⟨p, hp, hpd⟩ := hdp
          have hlen := hwf p hp
          rw [hz, hpd] at hlen
          rw [List.length_eq_zero] at hlen
          rw [hlen] at hget
          simpa using hget.symm
      rw [hempty] at hcell
      simp at hcell
    · obtain ⟨d, hd, hco⟩ := clean_products_qty_data df c hc hh hz
      rw [hco] at hget
      have hdta : dta = d.map cleanQtyCell := by simpa using hget.symm
      rw [hdta] at hcell
      obtain ⟨x, _, hx⟩ := List.mem_map.mp hcell
      rw [← hx]
      exact cleanQtyCell_ne_null x
  · intro c hc hh dta hget cell hcell
    have hmem_t : c ∈ WAREHOUSE_TARGET_COLS := by
      have : ∀ x ∈ WAREHOUSE_QTY_COLS ++ ["PRODUCT_ID", "WH_ID"],
          x ∈ WAREHOUSE_TARGET_COLS := by decide
      exact this c hc
    by_cases hz : df.nrows = 0
    · have hempty : dta = [] := by
        unfold clean_wh_df at hget
        rw [if_pos hz] at hget
        cases hg : getColData df c with
        | none =>
          rw [reindexDF_getColData_missing df WAREHOUSE_TARGET_COLS c hmem_t hg] at hget
          rw [hz] at hget
          simpa using hget.symm
        | some d =>
          rw [reindexDF_getColData_present df WAREHOUSE_TARGET_COLS c d hmem_t hg] at hget
          have hdp : ∃ p ∈ df.cols, p.2 = d := by
            unfold getColData at hg
            cases hf : df.cols.find? (fun p => p.1 = c) with
            | none => rw [hf] at hg; simp at hg
            | some q =>
              rw [hf] at hg
              simp at hg
              exact ⟨q, List.mem_of_find?_eq_some hf, hg⟩
          obtain ⟨p, hp, hpd⟩ := hdp
          have hlen := hwf p hp
          rw [hz, hpd] at hlen
          rw [List.length_eq_zero] at hlen
          rw [hlen] at hget
          simpa using hget.symm
      rw [hempty] at hcell
      simp at hcell
    · obtain ⟨d, hd, hco⟩ := clean_wh_qty_data df c hc hh hz
      rw [hco] at hget
      have hdta : dta = d.map cleanQtyCell := by simpa using hget.symm
      rw [hdta] at hcell
      obtain ⟨x, _, hx⟩ := List.mem_map.mp hcell
      rw [← hx]
      exact cleanQtyCell_ne_null x

/-- Counterexample to C4 as stated: a one-row batch that lacks the
`TOTAL_ON_HAND` column entirely is cleaned into a table whose
`TOTAL_ON_HAND` quantity column is null in its only row. -/
theorem clean_missing_qty_col_is_null :
    "TOTAL_ON_HAND" ∈ PRODUCT_QTY_COLS
    ∧ (⟨[("PRODUCT_ID", [Cell.num 1])]⟩ : DF).nrows = 1
    ∧ getColData (clean_products_df ⟨[("PRODUCT_ID", [Cell.num 1])]⟩) "TOTAL_ON_HAND"
        = some [Cell.null] := by decide

/-- C9: a quantity-family value that fails numeric parsing (for example
the string "abc") is coerced to the integer 0, never null, in both the
product context (7 quantity columns) and the warehouse context (10
quantity columns plus `PRODUCT_ID` and `WH_ID`). -/
theorem unparsable_quantity_becomes_zero (df : DF) :
    (∀ c ∈ PRODUCT_QTY_COLS, hasCol df c = true → ¬ df.nrows = 0 →
      ∀ dta, getColData df c = some dta →
      ∀ i cell, dta.get? i = some cell → toNumericCell cell = Cell.null →
      ∃ dta2, getColData (clean_products_df df) c = some dta2
        ∧ dta2.get? i = some (Cell.num 0))
    ∧ (∀ c ∈ WAREHOUSE_QTY_COLS ++ ["PRODUCT_ID", "WH_ID"], hasCol df c = true →
        ¬ df.nrows = 0 →
      ∀ dta, getColData df c = some dta →
      ∀ i cell, dta.get? i = some cell → toNumericCell cell = Cell.null →
      ∃ dta2, getColData (clean_wh_df df) c = some dta2
        ∧ dta2.get? i = some (Cell.num 0)) := by
  constructor
  · intro c hc hh hnz dta hget i cell hi hnull
    obtain ⟨d, hd, hco⟩ := clean_products_qty_data df c hc hh hnz
    rw [hd] at hget
    have hdd : dta = d := by simpa using hget.symm
    subst hdd
    refine ⟨dta.map cleanQtyCell, hco, ?_⟩
    rw [List.get?_map, hi]
    simp [cleanQtyCell_of_unparsable cell hnull]
  · intro c hc hh hnz dta hget i cell hi hnull
    obtain ⟨d, hd, hco⟩ := clean_wh_qty_data df c hc hh hnz
    rw [hd] at hget
    have hdd : dta = d := by simpa using hget.symm
    subst hdd
    refine ⟨dta.map cleanQtyCell, hco, ?_⟩
    rw [List.get?_map, hi]
    simp [cleanQtyCell_of_unparsable cell hnull]


/-- Witness for the amended C4 at a one-column, one-row batch. -/
theorem clean_schema_conformance_witness :
    wellFormed (⟨[("TOTAL_ON_HAND", [Cell.str "abc"])]⟩ : DF)
    ∧ (clean_products_df ⟨[("TOTAL_ON_HAND", [Cell.str "abc"])]⟩).colNames
        = PRODUCT_TARGET_COLS :=
  ⟨by intro p hp; rcases List.mem_singleton.mp hp with rfl; rfl,
   (clean_schema_conformance ⟨[("TOTAL_ON_HAND", [Cell.str "abc"])]⟩
     (by intro p hp; rcases List.mem_singleton.mp hp with rfl; rfl)).1⟩

/-- Witness for C9: the cell "abc" in `TOTAL_ON_HAND` comes out as 0. -/
theorem unparsable_quantity_becomes_zero_witness :
    toNumericCell (Cell.str "abc") = Cell.null
    ∧ (∃ dta2, getColData (clean_products_df ⟨[("TOTAL_ON_HAND", [Cell.str "abc"])]⟩)
        "TOTAL_ON_HAND" = some dta2 ∧ dta2.get? 0 = some (Cell.num 0)) :=
  ⟨rfl, (unparsable_quantity_becomes_zero ⟨[("TOTAL_ON_HAND", [Cell.str "abc"])]⟩).1
    "TOTAL_ON_HAND" (by decide) (by decide) (by decide) [Cell.str "abc"] rfl 0
    (Cell.str "abc") rfl rfl⟩


end ShippingSync
